import Mathlib

/-! # Penny Game — verification of the core game logic

A shallow embedding of the Penny Game server core (`src/api/app/constants.py`,
`models.py`, `game_logic.py`, and the role-change / cleanup logic reached from
`routes.py` and `validators.py`) together with proofs about it.

Modelling conventions:
* `datetime.now()` values are modelled as `Nat` timestamps (seconds); every
  operation that reads the clock takes the current time as an explicit `now`
  argument, and `timedelta` thresholds become `Nat` numbers of seconds.
* Python `dict`s keyed by player name are modelled as association lists
  `List (String × α)`; `setKey` updates the first matching entry in place and
  appends a fresh key at the end, which matches insertion-ordered `dict`
  update semantics (no duplicate keys arise when the initial list has none).
* Python functions that mutate the game and return a `bool` are modelled as
  functions returning `PennyGame × Bool`; the rejecting early returns leave
  the state component untouched, exactly as the Python early `return False`
  paths do.
-/

namespace PennyGame

/-! ## constants.py -/

def DEFAULT_BATCH_SIZES : List Nat := [15, 5, 1]

/-- `TOTAL_COINS = DEFAULT_BATCH_SIZES[0]`. -/
def TOTAL_COINS : Nat := DEFAULT_BATCH_SIZES.getD 0 0

def MAX_PLAYERS : Nat := 5

/-- `ROOM_INACTIVITY_THRESHOLD = timedelta(minutes=60)`, in seconds. -/
def ROOM_INACTIVITY_THRESHOLD : Nat := 60 * 60

/-- `PLAYER_INACTIVITY_THRESHOLD = timedelta(minutes=5)`, in seconds. -/
def PLAYER_INACTIVITY_THRESHOLD : Nat := 5 * 60

/-- `get_valid_batch_sizes()`: the `i in range(1, TOTAL_COINS + 1)` with
`TOTAL_COINS % i == 0`. -/
def get_valid_batch_sizes : List Nat :=
  (((List.range TOTAL_COINS).map (fun i => i + 1)).filter
    (fun i => TOTAL_COINS % i == 0))

def DEFAULT_BATCH_SIZE : Nat := TOTAL_COINS

def DEFAULT_REQUIRED_PLAYERS : Nat := MAX_PLAYERS

/-- `ROUND_TYPE_BATCH_SIZES["two_rounds"]`. -/
def TWO_ROUNDS_BATCH_SIZES : List Nat := [TOTAL_COINS, 1]

/-- `ROUND_TYPE_BATCH_SIZES["three_rounds"]`. -/
def THREE_ROUNDS_BATCH_SIZES : List Nat := DEFAULT_BATCH_SIZES

/-! ## models.py -/

/-- `GameState` enum. -/
inductive GameState where
  | lobby
  | active
  | round_complete
  | results
deriving DecidableEq, Repr

/-- `RoundType` enum. -/
inductive RoundType where
  | single
  | two_rounds
  | three_rounds
deriving DecidableEq, Repr

/-- `PlayerTimer` model. -/
structure PlayerTimer where
  player : String
  started_at : Option Nat := none
  ended_at : Option Nat := none
  duration_seconds : Option Nat := none
deriving DecidableEq, Repr

/-- One entry of the `sent_coins` history:
`{"count": ..., "timestamp": ..., "to_player": ...}`. -/
structure SentBatch where
  count : Nat
  timestamp : Nat
  to_player : String
deriving DecidableEq, Repr

/-- `RoundResult` model (the fields `game_logic.complete_current_round` fills). -/
structure RoundResult where
  round_number : Nat
  batch_size : Nat
  game_duration_seconds : Option Nat := none
  lead_time_seconds : Option Nat := none
  first_flip_at : Option Nat := none
  first_delivery_at : Option Nat := none
  player_timers : List (String × PlayerTimer) := []
  total_completed : Nat := 0
  total_coins : Nat := TOTAL_COINS
  started_at : Option Nat := none
  ended_at : Option Nat := none
deriving DecidableEq, Repr

/-- `PennyGame` model (the fields the verified operations read or write;
`room_id`, `host_secret`, `pennies`, `created_at` and `turn_timestamps` play
no part in any verified claim and are omitted). -/
structure Game where
  players : List String := []
  spectators : List String := []
  host : Option String := none
  state : GameState := .lobby
  round_type : RoundType := .three_rounds
  required_players : Nat := DEFAULT_REQUIRED_PLAYERS
  current_round : Nat := 0
  round_results : List RoundResult := []
  selected_batch_size : Option Nat := none
  batch_size : Nat := DEFAULT_BATCH_SIZE
  player_coins : List (String × List Bool) := []
  sent_coins : List (String × List SentBatch) := []
  player_timers : List (String × PlayerTimer) := []
  started_at : Option Nat := none
  ended_at : Option Nat := none
  game_duration_seconds : Option Nat := none
  first_flip_at : Option Nat := none
  first_delivery_at : Option Nat := none
  lead_time_seconds : Option Nat := none
  last_active_at : Nat := 0
deriving DecidableEq, Repr

/-! ## Association-list dictionaries

Python `dict` operations used by the game logic, on insertion-ordered
association lists. -/

/-- `m[k]` when present, else the default `d` (`dict.get(k, d)`). -/
def lookupD : List (String × α) → String → α → α
  | [], _, d => d
  | e :: rest, k, d => if e.1 = k then e.2 else lookupD rest k d

/-- `k in m`. -/
def hasKey : List (String × α) → String → Bool
  | [], _ => false
  | e :: rest, k => if e.1 = k then true else hasKey rest k

/-- `m[k] = v`: replace the first entry for `k` in place, append if absent. -/
def setKey : List (String × α) → String → α → List (String × α)
  | [], k, v => [(k, v)]
  | e :: rest, k, v => if e.1 = k then (k, v) :: rest else e :: setKey rest k v

/-- Total length of all coin lists in a `player_coins` dictionary. -/
def sumLen (m : List (String × List Bool)) : Nat :=
  (m.map (fun e => e.2.length)).sum

/-! ## game_logic.py — timers and finish detection -/

/-- `sum(1 for coin in player_coins if coin)`. -/
def heads_count (coins : List Bool) : Nat := coins.countP (fun c => c)

/-- `tails` analogue used by `get_tails_count`. -/
def tails_count (coins : List Bool) : Nat := coins.countP (fun c => !c)

/-- `start_player_timer(game, player)` at clock value `now`.  The defensive
`hasattr` check is dropped: `player_timers` always exists in the model. -/
def start_player_timer (g : Game) (player : String) (now : Nat) : Game :=
  let g1 : Game :=
    if hasKey g.player_timers player then g
    else { g with player_timers := setKey g.player_timers player { player := player } }
  let t := lookupD g1.player_timers player { player := player }
  match t.started_at with
  | some _ => g1
  | none =>
    let t2 := { t with started_at := some now }
    let g2 := { g1 with player_timers := setKey g1.player_timers player t2 }
    match g2.first_flip_at with
    | some _ => g2
    | none => { g2 with first_flip_at := some now }

/-- `_end_timer_if_running(timer)` at clock value `now`. -/
def end_timer_if_running (t : PlayerTimer) (now : Nat) : PlayerTimer :=
  match t.started_at, t.ended_at with
  | some s, none =>
    { t with ended_at := some now, duration_seconds := some (now - s) }
  | _, _ => t

/-- `has_player_finished(game, player)`.  Python computes
`game.players.index(player)` (which would raise for a player that holds a
coin entry but is not on the roster; `List.indexOf` returns the list length
there instead — all uses in the claims have the player on the roster). -/
def has_player_finished (g : Game) (player : String) : Bool :=
  if !hasKey g.player_coins player then false
  else
    let player_index := g.players.indexOf player
    if (lookupD g.player_coins player []).length > 0 then false
    else if player_index = 0 then true
    else
      (List.range player_index).all
        (fun i => (lookupD g.player_coins (g.players.getD i "") []).length == 0)

/-- `end_player_timer(game, player)` at clock value `now`. -/
def end_player_timer (g : Game) (player : String) (now : Nat) : Game :=
  if !hasKey g.player_timers player then g
  else
    let t := lookupD g.player_timers player { player := player }
    match t.started_at, t.ended_at with
    | some s, none =>
      if has_player_finished g player then
        let t2 := { t with ended_at := some now,
                           duration_seconds := some (now - s) }
        { g with player_timers := setKey g.player_timers player t2 }
      else g
    | _, _ => g

/-- `check_and_end_all_finished_timers(game)` at clock value `now`. -/
def check_and_end_all_finished_timers (g : Game) (now : Nat) : Game :=
  g.players.foldl
    (fun acc p => if has_player_finished acc p then end_player_timer acc p now else acc)
    g

/-! ## game_logic.py — coin mechanics -/

/-- `flip_coin(game, player, coin_index)` at clock value `now`.  The Python
guard `coin_index >= len(player_coins) or coin_index < 0` collapses to the
first disjunct for a `Nat` index. -/
def flip_coin (g : Game) (player : String) (coin_index : Nat) (now : Nat) :
    Game × Bool :=
  if !hasKey g.player_coins player then (g, false)
  else
    let player_coins := lookupD g.player_coins player []
    if coin_index ≥ player_coins.length then (g, false)
    else if player_coins.getD coin_index false then (g, false)
    else
      let g1 := start_player_timer g player now
      let pc := setKey g1.player_coins player (player_coins.set coin_index true)
      ({ g1 with player_coins := pc }, true)

/-- `can_send_batch(game, player)`. -/
def can_send_batch (g : Game) (player : String) : Bool :=
  if !hasKey g.player_coins player then false
  else
    let player_coins := lookupD g.player_coins player []
    decide (heads_count player_coins ≥ g.batch_size)
      || heads_count player_coins == player_coins.length

/-- The loop body of `_prepare_batch_transfer`, carrying the `heads_sent`
counter. -/
def prepare_batch_transfer_loop (batch : Nat) :
    List Bool → Nat → List Bool × List Bool
  | [], _ => ([], [])
  | coin :: rest, heads_sent =>
    if coin = true ∧ heads_sent < batch then
      let p := prepare_batch_transfer_loop batch rest (heads_sent + 1)
      (coin :: p.1, p.2)
    else
      let p := prepare_batch_transfer_loop batch rest heads_sent
      (p.1, coin :: p.2)

/-- `_prepare_batch_transfer(game, player)`. -/
def prepare_batch_transfer (g : Game) (player : String) :
    List Bool × List Bool :=
  prepare_batch_transfer_loop g.batch_size (lookupD g.player_coins player []) 0

/-- `_record_sent_batch(game, player, count, to_player)` at clock value `now`. -/
def record_sent_batch (g : Game) (player : String) (count : Nat)
    (to_player : String) (now : Nat) : Game :=
  let g1 :=
    if hasKey g.sent_coins player then g
    else { g with sent_coins := setKey g.sent_coins player [] }
  let entry : SentBatch := { count := count, timestamp := now,
                             to_player := to_player }
  let history := lookupD g1.sent_coins player [] ++ [entry]
  { g1 with sent_coins := setKey g1.sent_coins player history }

/-- The loop body of `_prepare_completion_transfer`, carrying the
`heads_processed` counter. -/
def prepare_completion_transfer_loop (to_complete : Nat) :
    List Bool → Nat → List Bool × List Bool
  | [], _ => ([], [])
  | coin :: rest, heads_processed =>
    if coin = true ∧ heads_processed < to_complete then
      let p := prepare_completion_transfer_loop to_complete rest (heads_processed + 1)
      (coin :: p.1, p.2)
    else
      let p := prepare_completion_transfer_loop to_complete rest heads_processed
      (p.1, coin :: p.2)

/-- `_prepare_completion_transfer(player_coins, coins_to_complete)`. -/
def prepare_completion_transfer (player_coins : List Bool)
    (coins_to_complete : Nat) : List Bool × List Bool :=
  prepare_completion_transfer_loop coins_to_complete player_coins 0

/-- `send_to_completion(game, player)` at clock value `now`.  Python reads
`game.players[-1]` (raising on an empty roster, which no caller reaches);
the model compares with `getLast?`. -/
def send_to_completion (g : Game) (player : String) (now : Nat) :
    Game × Bool :=
  if g.players.getLast? ≠ some player then (g, false)
  else
    let player_coins := lookupD g.player_coins player []
    let hc := heads_count player_coins
    if hc = 0 then (g, false)
    else
      let coins_to_complete := min hc g.batch_size
      let g1 :=
        if coins_to_complete > 0 ∧ g.first_delivery_at = none then
          let g' := { g with first_delivery_at := some now }
          match g'.first_flip_at with
          | some f => { g' with lead_time_seconds := some (now - f) }
          | none => g'
        else g
      let p := prepare_completion_transfer player_coins coins_to_complete
      let g2 := { g1 with player_coins := setKey g1.player_coins player p.2 }
      let g3 := record_sent_batch g2 player p.1.length "COMPLETED" now
      (check_and_end_all_finished_timers g3 now, true)

/-- `send_batch(game, player)` at clock value `now`. -/
def send_batch (g : Game) (player : String) (now : Nat) : Game × Bool :=
  if !can_send_batch g player then (g, false)
  else
    let player_index := g.players.indexOf player
    if player_index = g.players.length - 1 then
      let r := send_to_completion g player now
      if r.2 then (check_and_end_all_finished_timers r.1 now, r.2) else r
    else
      let next_player := g.players.getD (player_index + 1) ""
      let p := prepare_batch_transfer g player
      let g1 := { g with player_coins := setKey g.player_coins player p.2 }
      let g2 :=
        if hasKey g1.player_coins next_player then g1
        else { g1 with player_coins := setKey g1.player_coins next_player [] }
      let arriving := lookupD g2.player_coins next_player []
        ++ List.replicate p.1.length false
      let g3 := { g2 with player_coins := setKey g2.player_coins next_player arriving }
      let g4 := record_sent_batch g3 player p.1.length next_player now
      (check_and_end_all_finished_timers g4 now, true)

/-- `get_total_completed_coins(game)`. -/
def get_total_completed_coins (g : Game) : Nat :=
  if g.players = [] then 0
  else
    match g.players.getLast? with
    | none => 0
    | some last_player =>
      if !hasKey g.sent_coins last_player then 0
      else
        (lookupD g.sent_coins last_player []).foldl
          (fun total batch =>
            if batch.to_player = "COMPLETED" then total + batch.count else total)
          0

/-- `is_round_over(game)`. -/
def is_round_over (g : Game) : Bool :=
  if g.players = [] then false
  else
    decide (get_total_completed_coins g ≥ TOTAL_COINS)
      || g.players.all (fun p => has_player_finished g p)

/-! ## game_logic.py — round lifecycle -/

/-- `_initialize_player_timers(game)`. -/
def initialize_player_timers (g : Game) : Game :=
  { g with player_timers :=
      g.players.foldl (fun m p => setKey m p { player := p }) g.player_timers }

/-- `initialize_player_coins(game, is_new_round)`.  The dict comprehension
`{player: [] for player in game.players}` is modelled by `List.map`, which
agrees with it whenever the roster has no duplicate names. -/
def initialize_player_coins (g : Game) (is_new_round : Bool) : Game :=
  if g.players = [] then g
  else
    let g1 :=
      { g with
        player_coins := g.players.map (fun p => (p, ([] : List Bool))),
        sent_coins := g.players.map (fun p => (p, ([] : List SentBatch))) }
    let first_player := g1.players.headD ""
    let pc := setKey g1.player_coins first_player
      (List.replicate TOTAL_COINS false)
    let g2 := { g1 with player_coins := pc }
    let g3 := initialize_player_timers g2
    if is_new_round then
      { g3 with
        first_flip_at := none, first_delivery_at := none,
        lead_time_seconds := none }
    else g3

/-- `complete_current_round(game)` at clock value `now`.  Note that the Python
function appends the `RoundResult` but never assigns `game.state`. -/
def complete_current_round (g : Game) (now : Nat) : Game :=
  if g.state ≠ GameState.active then g
  else
    let g1 :=
      match g.started_at, g.ended_at with
      | some s, none =>
        { g with ended_at := some now, game_duration_seconds := some (now - s) }
      | _, _ => g
    let g2 := { g1 with player_timers :=
      g1.player_timers.map (fun e => (e.1, end_timer_if_running e.2 now)) }
    let rr : RoundResult := {
      round_number := g2.current_round,
      batch_size := g2.batch_size,
      game_duration_seconds := g2.game_duration_seconds,
      lead_time_seconds := g2.lead_time_seconds,
      first_flip_at := g2.first_flip_at,
      first_delivery_at := g2.first_delivery_at,
      player_timers := g2.player_timers,
      total_completed := get_total_completed_coins g2,
      started_at := g2.started_at,
      ended_at := g2.ended_at }
    { g2 with round_results := g2.round_results ++ [rr] }

/-- The dictionary `process_flip` / `process_send` return
(`_build_action_response`, plus the error dictionaries).  An error dictionary
carries only `success` and `error`; the remaining fields keep their defaults. -/
structure ActionResp where
  success : Bool
  error : Option String := none
  round_complete : Bool := false
  game_over : Bool := false
  player_coins : List (String × List Bool) := []
  sent_coins : List (String × List SentBatch) := []
  total_completed : Nat := 0
  state : GameState := .lobby
  current_round : Nat := 0
  player_timers : List (String × PlayerTimer) := []
  game_duration_seconds : Option Nat := none
  lead_time_seconds : Option Nat := none
  first_flip_at : Option Nat := none
  first_delivery_at : Option Nat := none
deriving DecidableEq, Repr

/-- `{"success": False, "error": msg}`. -/
def failure_response (msg : String) : ActionResp :=
  { success := false, error := some msg }

/-- `_build_action_response(game, round_complete, game_over)`. -/
def build_action_response (g : Game) (round_complete game_over : Bool) :
    ActionResp :=
  { success := true,
    round_complete := round_complete,
    game_over := game_over,
    player_coins := g.player_coins,
    sent_coins := g.sent_coins,
    total_completed := get_total_completed_coins g,
    state := g.state,
    current_round := g.current_round,
    player_timers := g.player_timers,
    game_duration_seconds := g.game_duration_seconds,
    lead_time_seconds := g.lead_time_seconds,
    first_flip_at := g.first_flip_at,
    first_delivery_at := g.first_delivery_at }

/-- `process_flip(game, player, coin_index)` at clock value `now`. -/
def process_flip (g : Game) (player : String) (coin_index : Nat) (now : Nat) :
    Game × ActionResp :=
  if g.state ≠ GameState.active then (g, failure_response "Game is not active")
  else if g.players = [] then (g, failure_response "No players in game")
  else if player ∉ g.players then (g, failure_response "Player not in game")
  else
    let r := flip_coin g player coin_index now
    if !r.2 then (r.1, failure_response "Cannot flip this coin")
    else
      let g1 := { r.1 with last_active_at := now }
      let g2 := check_and_end_all_finished_timers g1 now
      let round_complete := is_round_over g2
      let g3 := if round_complete then complete_current_round g2 now else g2
      let game_over :=
        if round_complete then decide (g3.state = GameState.results) else false
      (g3, build_action_response g3 round_complete game_over)

/-- `process_send(game, player)` at clock value `now`. -/
def process_send (g : Game) (player : String) (now : Nat) : Game × ActionResp :=
  if g.state ≠ GameState.active then (g, failure_response "Game is not active")
  else if g.players = [] then (g, failure_response "No players in game")
  else if player ∉ g.players then (g, failure_response "Player not in game")
  else
    let r := send_batch g player now
    if !r.2 then
      (r.1, failure_response
        "Cannot send batch - not enough flipped coins or invalid batch size")
    else
      let g1 := { r.1 with last_active_at := now }
      let g2 := check_and_end_all_finished_timers g1 now
      let round_complete := is_round_over g2
      let g3 := if round_complete then complete_current_round g2 now else g2
      let game_over :=
        if round_complete then decide (g3.state = GameState.results) else false
      (g3, build_action_response g3 round_complete game_over)

/-! ## game_logic.py — configuration, round sequencing, cleanup -/

/-- Python truthiness of an `Optional[int]`: `None` and `0` are falsy. -/
def optTruthy : Option Nat → Bool
  | none => false
  | some n => n != 0

/-- `get_batch_sizes_for_round_type(round_type, selected_batch_size)`. -/
def get_batch_sizes_for_round_type (round_type : RoundType)
    (selected_batch_size : Option Nat) : List Nat :=
  match round_type with
  | .single =>
    if optTruthy selected_batch_size then [selected_batch_size.getD 0]
    else [TOTAL_COINS]
  | .two_rounds => TWO_ROUNDS_BATCH_SIZES
  | .three_rounds => THREE_ROUNDS_BATCH_SIZES

/-- `set_round_config(game, round_type, required_players, selected_batch_size)`.
The Python tests `not selected_batch_size` and
`if selected_batch_size and ...` use integer truthiness, modelled by
`optTruthy`. -/
def set_round_config (g : Game) (round_type : RoundType)
    (required_players : Nat) (selected_batch_size : Option Nat) :
    Game × Bool :=
  if g.state ≠ GameState.lobby then (g, false)
  else if round_type = RoundType.single ∧ optTruthy selected_batch_size = false then
    (g, false)
  else if optTruthy selected_batch_size = true
      ∧ selected_batch_size.getD 0 ∉ get_valid_batch_sizes then
    (g, false)
  else if required_players < 2 ∨ required_players > 5 then (g, false)
  else
    let g1 :=
      { g with
        round_type := round_type, required_players := required_players,
        selected_batch_size := selected_batch_size, current_round := 0,
        round_results := [] }
    (g1, true)

/-- `start_next_round(game)` at clock value `now` (`pennies` and
`turn_timestamps` are not modelled). -/
def start_next_round (g : Game) (now : Nat) : Game × Bool :=
  if g.state ≠ GameState.lobby ∧ g.state ≠ GameState.round_complete then
    (g, false)
  else
    let batch_sizes :=
      get_batch_sizes_for_round_type g.round_type g.selected_batch_size
    if g.current_round ≥ batch_sizes.length then (g, false)
    else
      let g1 := { g with current_round := g.current_round + 1 }
      let g2 := { g1 with batch_size := batch_sizes.getD (g1.current_round - 1) 0 }
      let g3 :=
        { g2 with
          started_at := some now, ended_at := none,
          game_duration_seconds := none, last_active_at := now,
          state := GameState.active }
      let g4 := initialize_player_coins g3 true
      let g5 :=
        { g4 with
          first_flip_at := none, first_delivery_at := none,
          lead_time_seconds := none }
      (g5, true)

/-- The per-room part of `cleanup()`: remove "inactive" players (the Python
loop tests `now - game.last_active_at < PLAYER_INACTIVITY_THRESHOLD` for
every player — the condition does not depend on the player) and reinitialize
the coins when the game is active. -/
def cleanup_room_players (g : Game) (now : Nat) : Game :=
  let active_players := g.players.filter
    (fun _ => decide (now - g.last_active_at < PLAYER_INACTIVITY_THRESHOLD))
  if active_players.length < g.players.length then
    let g1 := { g with players := active_players }
    if g1.state = GameState.active then initialize_player_coins g1 true else g1
  else g

/-- `cleanup()` over the `games` registry at clock value `now`: returns the
registry after the sweep together with the `removed_games` list. -/
def cleanup (games : List (String × Game)) (now : Nat) :
    List (String × Game) × List String :=
  games.foldl
    (fun acc e =>
      let g := cleanup_room_players e.2 now
      if now - g.last_active_at > ROOM_INACTIVITY_THRESHOLD then
        (acc.1, acc.2 ++ [e.1])
      else (acc.1 ++ [(e.1, g)], acc.2))
    ([], [])

/-! ## validators.py / routes.py — role changes -/

/-- `GameValidator.validate_player_limit`. -/
def validate_player_limit (g : Game) : Bool :=
  decide (g.players.length < MAX_PLAYERS)

/-- `GameValidator.validate_role_change`. -/
def validate_role_change (g : Game) (username new_role : String) : Bool :=
  if g.host = some username then false
  else if new_role = "player" then
    if !decide (username ∈ g.spectators) then false
    else validate_player_limit g
  else if new_role = "spectator" then decide (username ∈ g.players)
  else false

/-- The role-change mutation of `routes.change_role` (validation plus the
roster update; the HTTP 400 raised on a failed validation is modelled as a
`false` result with the game untouched). -/
def change_role (g : Game) (username new_role : String) (now : Nat) :
    Game × Bool :=
  if !validate_role_change g username new_role then (g, false)
  else
    let g1 :=
      if new_role = "player" then
        { g with spectators := g.spectators.erase username,
                 players := g.players ++ [username] }
      else if new_role = "spectator" then
        let g' := { g with players := g.players.erase username,
                           spectators := g.spectators ++ [username] }
        if g'.state = GameState.active then initialize_player_coins g' true
        else g'
      else g
    ({ g1 with last_active_at := now }, true)

/-! ## Action sequences

A round action as the API exposes it: a coin flip, a batch send, or a direct
completion send by the last player. -/

inductive Op where
  | flip (player : String) (coin_index : Nat) (now : Nat)
  | send (player : String) (now : Nat)
  | complete (player : String) (now : Nat)

def applyOp (g : Game) : Op → Game
  | .flip p i t => (flip_coin g p i t).1
  | .send p t => (send_batch g p t).1
  | .complete p t => (send_to_completion g p t).1

/-- The state after running a list of round actions. -/
def applyOps (g : Game) : List Op → Game
  | [] => g
  | op :: ops => applyOps (applyOp g op) ops

/-- A concrete game used as the C4 rejection witness: player `a` holds an
already-active coin at index 0. -/
def flip_witness_game : Game :=
  { players := ["a", "b"], state := .active, batch_size := 15,
    player_coins := [("a", [true, false]), ("b", [])],
    sent_coins := [("a", []), ("b", [])] }

/-! ## C1 — the round-end lifecycle transition never happens

`complete_current_round` appends the `RoundResult` snapshot but never assigns
`game.state`; no statement in `game_logic.py` ever writes
`GameState.ROUND_COMPLETE` or `GameState.RESULTS` into a game, so the
`game_over = game.state == GameState.RESULTS` test in `process_flip` /
`process_send` is always `False` and the session stays `ACTIVE` after a
round-ending action. -/

/-- The final position of a single-round game (`round_type=single`,
`selected_batch_size=15`, so the batch-size sequence `[15]` is exhausted at
`current_round = 1`): the last player `b` holds all 15 coins flipped and is
about to send them to completion. -/
def single_round_final : Game :=
  { players := ["a", "b"], state := .active, batch_size := 15,
    round_type := .single, selected_batch_size := some 15, current_round := 1,
    player_coins := [("a", []), ("b", List.replicate 15 true)],
    sent_coins := [("a", [{ count := 15, timestamp := 20, to_player := "b" }]),
                   ("b", [])],
    player_timers := [("a", { player := "a", started_at := some 10 }),
                      ("b", { player := "b", started_at := some 21 })],
    started_at := some 0, last_active_at := 21, first_flip_at := some 10 }

/-! ## C5 — round configuration -/

def lobby_game : Game := { state := .lobby }

/-! ## C3 — send legality and inactive arrival -/

/-- The C3 counterexample game: the chain is `[a, b]`, the last player `b`
holds an empty coin list. -/
def empty_last_game : Game :=
  { players := ["a", "b"], state := .active, batch_size := 5,
    player_coins := [("a", [false, true]), ("b", [])],
    sent_coins := [("a", []), ("b", [])] }

/-- The C3 witness game: `a` (not last) holds three active units with batch
size 2. -/
def send_witness_game : Game :=
  { players := ["a", "b"], state := .active, batch_size := 2,
    player_coins := [("a", [true, true, true]), ("b", [false])],
    sent_coins := [("a", []), ("b", [])] }

/-- The C10 witness game: `a` (not last) holds an empty coin list. -/
def empty_hand_game : Game :=
  { players := ["a", "b"], state := .active, batch_size := 5,
    player_coins := [("a", []), ("b", [false, true])],
    sent_coins := [("a", [{ count := 2, timestamp := 1, to_player := "b" }]),
                   ("b", [])] }

/-- The C6 witness game: two players, batch size 1, first flip recorded at
10, `b` (last) holds one active unit and no delivery has happened yet. -/
def lead_time_game : Game :=
  { players := ["a", "b"], state := .active, batch_size := 1,
    player_coins := [("a", [false, true]), ("b", [true])],
    sent_coins := [("a", [{ count := 1, timestamp := 15, to_player := "b" }]),
                   ("b", [])],
    player_timers := [("a", { player := "a", started_at := some 10 }),
                      ("b", { player := "b", started_at := some 20 })],
    started_at := some 5, last_active_at := 20, first_flip_at := some 10 }

/-- The C9 counterexample game: an active session with spectator `c` about to
be promoted to player. -/
def promo_game : Game :=
  { players := ["a", "b"], spectators := ["c"], state := .active,
    batch_size := 5,
    player_coins := [("a", [true, false]), ("b", [false])],
    sent_coins := [("a", []), ("b", [])] }

/-- The C9 witness game: an active session whose player `b` is demoted to
spectator. -/
def demote_game : Game :=
  { players := ["a", "b"], spectators := [], state := .active, batch_size := 5,
    player_coins := [("a", [true]), ("b", [false, true])],
    sent_coins := [("a", []), ("b", [])] }

/-- The C8 counterexample room: last active at 0, swept at `now = 300`
(inactivity equals the player threshold exactly). -/
def stale_room : Game :=
  { players := ["a", "b"], state := .lobby, last_active_at := 0 }

/-- A room over the room-inactivity threshold at `now = 4000`. -/
def old_room : Game :=
  { players := ["a"], state := .lobby, last_active_at := 0 }

/-- A room well within every threshold at `now = 4000`. -/
def fresh_room : Game :=
  { players := ["b", "c"], state := .lobby, last_active_at := 3900 }

/-- Roster/dictionary well-formedness, established by round initialization
and preserved by every round action: a nonempty duplicate-free roster whose
names are exactly the keys of both per-player dictionaries. -/
def WF (g : Game) : Prop :=
  g.players ≠ [] ∧ g.players.Nodup
    ∧ g.player_coins.map Prod.fst = g.players
    ∧ g.sent_coins.map Prod.fst = g.players

/-- The conservation quantity of C2: units held by players plus units
recorded to the terminal COMPLETED bucket. -/
def conserved (g : Game) : Prop :=
  sumLen g.player_coins + get_total_completed_coins g = TOTAL_COINS

/-- Every chain position up to (and including) `p`'s holds no units — the
content of `has_player_finished`. -/
def region_zero (g : Game) (p : String) : Prop :=
  ∀ x ∈ g.players, g.players.indexOf x ≤ g.players.indexOf p →
    (lookupD g.player_coins x []).length = 0

/-- The state at round initialization: an active game with a fixed roster
and batch size whose ledger `initialize_player_coins` has just filled. -/
def init_round (players : List String) (bs t0 : Nat) : Game :=
  initialize_player_coins
    { players := players, state := .active, batch_size := bs,
      current_round := 1, started_at := some t0, last_active_at := t0 } true

/-- The C7 witness game: `a` (chain position 0) has drained its hand, so
`has_player_finished a` holds; `b` still works. -/
def finished_a_game : Game :=
  { players := ["a", "b"], state := .active, batch_size := 2,
    player_coins := [("a", []), ("b", [false, false, true])],
    sent_coins := [("a", [{ count := 3, timestamp := 9, to_player := "b" }]),
                   ("b", [])] }

/-! ## Theorems -/

theorem lookupD_setKey_self (m : List (String × α)) (k : String) (v d : α) :
    lookupD (setKey m k v) k d = v := by
  induction m with
  | nil => simp [setKey, lookupD]
  | cons e rest ih =>
    by_cases h : e.1 = k
    · simp [setKey, lookupD, h]
    · simp [setKey, lookupD, h, ih]

theorem lookupD_setKey_ne (m : List (String × α)) {k k' : String} (v d : α)
    (h : k' ≠ k) : lookupD (setKey m k v) k' d = lookupD m k' d := by
  induction m with
  | nil => simp [setKey, lookupD, Ne.symm h]
  | cons e rest ih =>
    by_cases he : e.1 = k
    · subst he
      simp [setKey, lookupD, Ne.symm h]
    · by_cases he' : e.1 = k' <;> simp [setKey, lookupD, he, he', ih, h]

theorem hasKey_setKey_self (m : List (String × α)) (k : String) (v : α) :
    hasKey (setKey m k v) k = true := by
  induction m with
  | nil => simp [setKey, hasKey]
  | cons e rest ih =>
    by_cases h : e.1 = k <;> simp [setKey, hasKey, h, ih]

theorem hasKey_setKey_ne (m : List (String × α)) {k k' : String} (v : α)
    (h : k' ≠ k) : hasKey (setKey m k v) k' = hasKey m k' := by
  induction m with
  | nil => simp [setKey, hasKey, Ne.symm h]
  | cons e rest ih =>
    by_cases he : e.1 = k
    · subst he
      simp [setKey, hasKey, Ne.symm h]
    · by_cases he' : e.1 = k' <;> simp [setKey, hasKey, he, he', ih, h]

theorem lookupD_eq_default_of_not_hasKey (m : List (String × α)) (k : String)
    (d : α) (h : hasKey m k = false) : lookupD m k d = d := by
  induction m with
  | nil => simp [lookupD]
  | cons e rest ih =>
    by_cases he : e.1 = k
    · simp [hasKey, he] at h
    · simp [hasKey, he] at h
      simp [lookupD, he, ih h]

theorem keys_setKey_of_hasKey (m : List (String × α)) (k : String) (v : α)
    (h : hasKey m k = true) :
    (setKey m k v).map Prod.fst = m.map Prod.fst := by
  induction m with
  | nil => simp [hasKey] at h
  | cons e rest ih =>
    by_cases he : e.1 = k
    · simp [setKey, he]
    · simp [hasKey, he] at h
      simp [setKey, he, ih h]

theorem hasKey_iff_mem_keys (m : List (String × α)) (k : String) :
    hasKey m k = true ↔ k ∈ m.map Prod.fst := by
  induction m with
  | nil => simp [hasKey]
  | cons e rest ih =>
    by_cases he : e.1 = k <;> simp [hasKey, he, ih]
    exact fun h => absurd h.symm he

theorem sumLen_setKey (m : List (String × List Bool)) (k : String)
    (v : List Bool) :
    sumLen (setKey m k v) + (lookupD m k []).length
      = sumLen m + v.length := by
  induction m with
  | nil => simp [setKey, lookupD, sumLen]
  | cons e rest ih =>
    by_cases he : e.1 = k
    · simp [setKey, lookupD, sumLen, he]
      omega
    · simp only [setKey, lookupD, he, if_false, sumLen, List.map_cons,
        List.sum_cons]
      simp only [sumLen] at ih
      omega

/-! ## Mutation footprints of the timer helpers -/

theorem start_player_timer_shape (g : Game) (p : String) (t : Nat) :
    (∃ pt, start_player_timer g p t = { g with player_timers := pt }) ∨
    (∃ pt, start_player_timer g p t =
        { g with player_timers := pt, first_flip_at := some t }
      ∧ g.first_flip_at = none) := by
  unfold start_player_timer
  by_cases h : hasKey g.player_timers p
  · simp only [h, if_true]
    cases hs : (lookupD g.player_timers p { player := p }).started_at with
    | some s => exact Or.inl ⟨g.player_timers, rfl⟩
    | none =>
      cases hf : g.first_flip_at with
      | some f => exact Or.inl ⟨_, rfl⟩
      | none => exact Or.inr ⟨_, rfl, rfl⟩
  · simp only [h, if_false, Bool.false_eq_true]
    cases hs : (lookupD (setKey g.player_timers p { player := p }) p
        { player := p }).started_at with
    | some s => exact Or.inl ⟨_, rfl⟩
    | none =>
      cases hf : g.first_flip_at with
      | some f => exact Or.inl ⟨_, rfl⟩
      | none => exact Or.inr ⟨_, rfl, rfl⟩

theorem end_player_timer_shape (g : Game) (p : String) (t : Nat) :
    ∃ pt, end_player_timer g p t = { g with player_timers := pt } := by
  unfold end_player_timer
  by_cases h : hasKey g.player_timers p
  · simp only [h, if_true]
    cases hs : (lookupD g.player_timers p { player := p }).started_at with
    | none => exact ⟨g.player_timers, rfl⟩
    | some s =>
      cases he : (lookupD g.player_timers p { player := p }).ended_at with
      | some e => exact ⟨g.player_timers, rfl⟩
      | none =>
        by_cases hf : has_player_finished g p
        · simp only [hf, if_true]
          exact ⟨_, rfl⟩
        · simp only [hf, if_false]
          exact ⟨g.player_timers, rfl⟩
  · simp only [h, if_false, Bool.false_eq_true]
    exact ⟨g.player_timers, rfl⟩

theorem foldl_end_timers_shape (l : List String) (t : Nat) :
    ∀ g0 g : Game, (∃ pt, g = { g0 with player_timers := pt }) →
      ∃ pt,
        l.foldl (fun acc p =>
          if has_player_finished acc p then end_player_timer acc p t else acc) g
        = { g0 with player_timers := pt } := by
  induction l with
  | nil => exact fun g0 g h => h
  | cons p rest ih =>
    intro g0 g h
    simp only [List.foldl_cons]
    by_cases hf : has_player_finished g p
    · simp only [hf, if_true]
      obtain ⟨pt0, rfl⟩ := h
      obtain ⟨pt, he⟩ := end_player_timer_shape { g0 with player_timers := pt0 } p t
      exact ih g0 _ ⟨pt, he⟩
    · simp only [hf, if_false]
      exact ih g0 g h

theorem check_and_end_all_finished_timers_shape (g : Game) (t : Nat) :
    ∃ pt, check_and_end_all_finished_timers g t = { g with player_timers := pt } := by
  exact foldl_end_timers_shape g.players t g g ⟨g.player_timers, rfl⟩

/-! ## Mutation footprint of `flip_coin` -/

theorem flip_coin_reject_no_key (g : Game) (p : String) (i t : Nat)
    (hk : hasKey g.player_coins p = false) : flip_coin g p i t = (g, false) := by
  unfold flip_coin
  rw [if_pos (by rw [hk]; rfl)]

theorem flip_coin_reject_range (g : Game) (p : String) (i t : Nat)
    (hk : hasKey g.player_coins p = true)
    (hl : (lookupD g.player_coins p []).length ≤ i) :
    flip_coin g p i t = (g, false) := by
  unfold flip_coin
  rw [if_neg (by rw [hk]; exact Bool.false_ne_true)]
  dsimp only
  rw [if_pos (by omega)]

theorem flip_coin_reject_heads (g : Game) (p : String) (i t : Nat)
    (hk : hasKey g.player_coins p = true)
    (hl : i < (lookupD g.player_coins p []).length)
    (hg : (lookupD g.player_coins p []).getD i false = true) :
    flip_coin g p i t = (g, false) := by
  unfold flip_coin
  rw [if_neg (by rw [hk]; exact Bool.false_ne_true)]
  dsimp only
  rw [if_neg (by omega), if_pos hg]

theorem flip_coin_success_shape (g : Game) (p : String) (i t : Nat)
    (hk : hasKey g.player_coins p = true)
    (hl : i < (lookupD g.player_coins p []).length)
    (hg : (lookupD g.player_coins p []).getD i false = false) :
    ∃ pt ff, flip_coin g p i t =
      ({ g with
          player_timers := pt, first_flip_at := ff,
          player_coins := setKey g.player_coins p
            ((lookupD g.player_coins p []).set i true) },
        true)
      ∧ (ff = g.first_flip_at ∨ (g.first_flip_at = none ∧ ff = some t)) := by
  unfold flip_coin
  rw [if_neg (by rw [hk]; exact Bool.false_ne_true)]
  dsimp only
  rw [if_neg (by omega), if_neg (by rw [hg]; exact Bool.false_ne_true)]
  rcases start_player_timer_shape g p t with ⟨pt, hsp⟩ | ⟨pt, hsp, hff⟩
  · rw [hsp]
    exact ⟨pt, g.first_flip_at, rfl, Or.inl rfl⟩
  · rw [hsp]
    exact ⟨pt, some t, rfl, Or.inr ⟨hff, rfl⟩⟩

/-- Every `flip_coin` call either rejects and returns the game untouched, or
succeeds on a present, in-range, inactive coin and only sets that coin,
the player timers and possibly the first-flip timestamp. -/
theorem flip_coin_spec (g : Game) (p : String) (i t : Nat) :
    flip_coin g p i t = (g, false)
    ∨ (hasKey g.player_coins p = true
       ∧ i < (lookupD g.player_coins p []).length
       ∧ (lookupD g.player_coins p []).getD i false = false
       ∧ ∃ pt ff, flip_coin g p i t =
          ({ g with
              player_timers := pt, first_flip_at := ff,
              player_coins := setKey g.player_coins p
                ((lookupD g.player_coins p []).set i true) },
            true)
          ∧ (ff = g.first_flip_at ∨ (g.first_flip_at = none ∧ ff = some t))) := by
  by_cases hk : hasKey g.player_coins p
  · by_cases hl : i < (lookupD g.player_coins p []).length
    · by_cases hg : (lookupD g.player_coins p []).getD i false = true
      · exact Or.inl (flip_coin_reject_heads g p i t hk hl hg)
      · exact Or.inr ⟨hk, hl, by simpa using hg,
          flip_coin_success_shape g p i t hk hl (by simpa using hg)⟩
    · exact Or.inl (flip_coin_reject_range g p i t hk (by omega))
  · exact Or.inl (flip_coin_reject_no_key g p i t (by simpa using hk))

/-! ## C4 — flips that must be rejected leave no trace -/

/-- C4: a `flip_coin` call on an unknown player, an out-of-range index, or an
already-active (heads) coin returns a rejection and leaves the game state
entirely unchanged — no coin value changes, no player timer is started, and
the round's first-flip timestamp is not set (the returned game is the input
game); under the `process_flip` validations the call likewise returns the
untouched game with an error response. -/
theorem flip_rejection_no_side_effects (g : Game) (p : String) (i t : Nat)
    (h : hasKey g.player_coins p = false
       ∨ (lookupD g.player_coins p []).length ≤ i
       ∨ (lookupD g.player_coins p []).getD i false = true) :
    flip_coin g p i t = (g, false)
    ∧ (g.state = GameState.active → g.players ≠ [] → p ∈ g.players →
        process_flip g p i t = (g, failure_response "Cannot flip this coin")) := by
  have hrej : flip_coin g p i t = (g, false) := by
    rcases h with hk | hl | hg
    · exact flip_coin_reject_no_key g p i t hk
    · by_cases hk : hasKey g.player_coins p
      · exact flip_coin_reject_range g p i t hk hl
      · exact flip_coin_reject_no_key g p i t (by simpa using hk)
    · by_cases hk : hasKey g.player_coins p
      · by_cases hl : i < (lookupD g.player_coins p []).length
        · exact flip_coin_reject_heads g p i t hk hl hg
        · exact flip_coin_reject_range g p i t hk (by omega)
      · exact flip_coin_reject_no_key g p i t (by simpa using hk)
  refine ⟨hrej, fun hs hne hp => ?_⟩
  unfold process_flip
  rw [if_neg (by simp [hs]), if_neg hne, if_neg (not_not_intro hp)]
  dsimp only
  rw [hrej]
  rfl

theorem flip_rejection_no_side_effects_witness :
    flip_coin flip_witness_game "a" 0 7 = (flip_witness_game, false)
    ∧ process_flip flip_witness_game "a" 0 7
        = (flip_witness_game, failure_response "Cannot flip this coin") := by
  have h := flip_rejection_no_side_effects flip_witness_game "a" 0 7
    (Or.inr (Or.inr (by decide)))
  exact ⟨h.1, h.2 rfl (by decide) (by decide)⟩

/-- C1: on the round-ending send of the last round the action succeeds, the
round is detected as over and the `RoundResult` is appended, and the
batch-size sequence is exhausted — yet the returned `game_over` flag is
`false` and the session's state remains `active` instead of transitioning to
`round_complete`/`results`. -/
theorem round_end_keeps_active_state_and_game_over_false :
    (process_send single_round_final "b" 50).2.success = true
    ∧ (process_send single_round_final "b" 50).2.round_complete = true
    ∧ (process_send single_round_final "b" 50).1.round_results.length = 1
    ∧ get_batch_sizes_for_round_type single_round_final.round_type
        single_round_final.selected_batch_size = [15]
    ∧ single_round_final.current_round = 1
    ∧ (process_send single_round_final "b" 50).2.game_over = false
    ∧ (process_send single_round_final "b" 50).1.state = GameState.active
    ∧ (process_send single_round_final "b" 50).2.state = GameState.active := by
  refine ⟨?_, ?_, ?_, ?_, ?_, ?_, ?_, ?_⟩ <;> decide

/-- C5 counterexample: with the session in the lobby and every other argument
well-formed, a `two_rounds` configuration carrying `selected_batch_size = 0`
is accepted, although `0` is not a divisor of the total coin count
(`0 ∉ get_valid_batch_sizes`): the integer falsiness of `0` skips the
divisor check, so "rejected exactly when the selected batch size is not a
divisor" fails. -/
theorem set_round_config_accepts_zero_batch :
    (set_round_config lobby_game RoundType.two_rounds 3 (some 0)).2 = true
    ∧ ¬(0 ∈ get_valid_batch_sizes)
    ∧ lobby_game.state = GameState.lobby := by
  exact ⟨by decide, by decide, rfl⟩

/-- C5 (amended): the configuration call is rejected exactly when the session
is not in the lobby, or the round type is `single` with no *truthy* (present
and nonzero) selected batch size, or a truthy selected batch size is not a
divisor of the total unit count, or `required_players` lies outside
`[2, MAX_PLAYERS]`; and on every successful call `current_round` is reset to
0 and the round-result history is cleared. -/
theorem set_round_config_spec (g : Game) (rt : RoundType) (rp : Nat)
    (sel : Option Nat) :
    ((set_round_config g rt rp sel).2 = true ↔
      (g.state = GameState.lobby
        ∧ ¬(rt = RoundType.single ∧ optTruthy sel = false)
        ∧ ¬(optTruthy sel = true ∧ sel.getD 0 ∉ get_valid_batch_sizes)
        ∧ 2 ≤ rp ∧ rp ≤ MAX_PLAYERS))
    ∧ ((set_round_config g rt rp sel).2 = true →
        (set_round_config g rt rp sel).1.current_round = 0
        ∧ (set_round_config g rt rp sel).1.round_results = []) := by
  unfold set_round_config
  by_cases h1 : g.state = GameState.lobby
  · rw [if_neg (by simp [h1])]
    by_cases h2 : rt = RoundType.single ∧ optTruthy sel = false
    · rw [if_pos h2]
      constructor
      · simp only [Bool.false_eq_true, false_iff]
        intro hc
        exact absurd h2 hc.2.1
      · intro hs
        exact absurd hs (by simp)
    · rw [if_neg h2]
      by_cases h3 : optTruthy sel = true ∧ sel.getD 0 ∉ get_valid_batch_sizes
      · rw [if_pos h3]
        constructor
        · simp only [Bool.false_eq_true, false_iff]
          intro hc
          exact absurd h3 hc.2.2.1
        · intro hs
          exact absurd hs (by simp)
      · rw [if_neg h3]
        by_cases h4 : rp < 2 ∨ rp > 5
        · rw [if_pos h4]
          constructor
          · simp only [Bool.false_eq_true, false_iff]
            intro hc
            have := hc.2.2.2
            unfold MAX_PLAYERS at this
            omega
          · intro hs
            exact absurd hs (by simp)
        · rw [if_neg h4]
          refine ⟨?_, fun _ => ⟨rfl, rfl⟩⟩
          simp only [true_iff]
          exact ⟨h1, h2, h3, by unfold MAX_PLAYERS; omega⟩
  · rw [if_pos (by simp [h1])]
    constructor
    · simp only [Bool.false_eq_true, false_iff]
      intro hc
      exact h1 hc.1
    · intro hs
      exact absurd hs (by simp)

/-! ## Mutation footprints of the send helpers -/

theorem prepare_batch_transfer_loop_length (b : Nat) (l : List Bool) :
    ∀ n, (prepare_batch_transfer_loop b l n).1.length
        + (prepare_batch_transfer_loop b l n).2.length = l.length := by
  induction l with
  | nil => intro n; simp [prepare_batch_transfer_loop]
  | cons c rest ih =>
    intro n
    unfold prepare_batch_transfer_loop
    by_cases h : c = true ∧ n < b
    · rw [if_pos h]
      simp only [List.length_cons]
      have := ih (n + 1)
      omega
    · rw [if_neg h]
      simp only [List.length_cons]
      have := ih n
      omega

theorem prepare_completion_transfer_loop_length (b : Nat) (l : List Bool) :
    ∀ n, (prepare_completion_transfer_loop b l n).1.length
        + (prepare_completion_transfer_loop b l n).2.length = l.length := by
  induction l with
  | nil => intro n; simp [prepare_completion_transfer_loop]
  | cons c rest ih =>
    intro n
    unfold prepare_completion_transfer_loop
    by_cases h : c = true ∧ n < b
    · rw [if_pos h]
      simp only [List.length_cons]
      have := ih (n + 1)
      omega
    · rw [if_neg h]
      simp only [List.length_cons]
      have := ih n
      omega

theorem record_sent_batch_shape (g : Game) (p : String) (c : Nat)
    (tp : String) (t : Nat) :
    ∃ sc, record_sent_batch g p c tp t = { g with sent_coins := sc } := by
  unfold record_sent_batch
  by_cases h : hasKey g.sent_coins p
  · rw [if_pos h]
    exact ⟨_, rfl⟩
  · rw [if_neg h]
    exact ⟨_, rfl⟩

theorem record_sent_batch_lookup_self (g : Game) (p : String) (c : Nat)
    (tp : String) (t : Nat) :
    lookupD (record_sent_batch g p c tp t).sent_coins p []
      = lookupD g.sent_coins p []
        ++ [{ count := c, timestamp := t, to_player := tp }] := by
  unfold record_sent_batch
  by_cases h : hasKey g.sent_coins p
  · rw [if_pos h]
    dsimp only
    rw [lookupD_setKey_self]
  · rw [if_neg h]
    dsimp only
    rw [lookupD_setKey_self, lookupD_setKey_self,
      lookupD_eq_default_of_not_hasKey _ _ _ (by simpa using h)]

theorem record_sent_batch_lookup_ne (g : Game) (p : String) (c : Nat)
    (tp : String) (t : Nat) {q : String} (hq : q ≠ p) :
    lookupD (record_sent_batch g p c tp t).sent_coins q []
      = lookupD g.sent_coins q [] := by
  unfold record_sent_batch
  by_cases h : hasKey g.sent_coins p
  · rw [if_pos h]
    dsimp only
    rw [lookupD_setKey_ne _ _ _ hq]
  · rw [if_neg h]
    dsimp only
    rw [lookupD_setKey_ne _ _ _ hq, lookupD_setKey_ne _ _ _ hq]

theorem record_sent_batch_keys (g : Game) (p : String) (c : Nat)
    (tp : String) (t : Nat) (h : hasKey g.sent_coins p = true) :
    (record_sent_batch g p c tp t).sent_coins.map Prod.fst
      = g.sent_coins.map Prod.fst := by
  unfold record_sent_batch
  rw [if_pos h]
  dsimp only
  exact keys_setKey_of_hasKey _ _ _ h

/-! Branch equations for `send_to_completion` and `send_batch`. -/

theorem send_to_completion_not_last (g : Game) (p : String) (t : Nat)
    (h : g.players.getLast? ≠ some p) :
    send_to_completion g p t = (g, false) := by
  unfold send_to_completion
  rw [if_pos h]

theorem send_to_completion_no_heads (g : Game) (p : String) (t : Nat)
    (hl : g.players.getLast? = some p)
    (hh : heads_count (lookupD g.player_coins p []) = 0) :
    send_to_completion g p t = (g, false) := by
  unfold send_to_completion
  rw [if_neg (not_not_intro hl)]
  dsimp only
  rw [if_pos hh]

theorem send_to_completion_success_eq (g : Game) (p : String) (t : Nat)
    (hl : g.players.getLast? = some p)
    (hh : heads_count (lookupD g.player_coins p []) ≠ 0) :
    send_to_completion g p t =
      (let player_coins := lookupD g.player_coins p []
       let coins_to_complete := min (heads_count player_coins) g.batch_size
       let g1 : Game :=
         if coins_to_complete > 0 ∧ g.first_delivery_at = none then
           let g' : Game := { g with first_delivery_at := some t }
           match g'.first_flip_at with
           | some f => { g' with lead_time_seconds := some (t - f) }
           | none => g'
         else g
       let p2 := prepare_completion_transfer player_coins coins_to_complete
       let g2 : Game := { g1 with player_coins := setKey g1.player_coins p p2.2 }
       let g3 := record_sent_batch g2 p p2.1.length "COMPLETED" t
       (check_and_end_all_finished_timers g3 t, true)) := by
  unfold send_to_completion
  rw [if_neg (not_not_intro hl)]
  dsimp only
  rw [if_neg hh]

theorem send_batch_not_can_send (g : Game) (p : String) (t : Nat)
    (hc : can_send_batch g p = false) :
    send_batch g p t = (g, false) := by
  unfold send_batch
  rw [if_pos (by rw [hc]; rfl)]

theorem send_batch_last_eq (g : Game) (p : String) (t : Nat)
    (hc : can_send_batch g p = true)
    (hidx : g.players.indexOf p = g.players.length - 1) :
    send_batch g p t =
      (let r := send_to_completion g p t
       if r.2 then (check_and_end_all_finished_timers r.1 t, r.2) else r) := by
  unfold send_batch
  rw [if_neg (by rw [hc]; exact Bool.false_ne_true)]
  dsimp only
  rw [if_pos hidx]

theorem send_batch_nonlast_eq (g : Game) (p : String) (t : Nat)
    (hc : can_send_batch g p = true)
    (hidx : g.players.indexOf p ≠ g.players.length - 1) :
    send_batch g p t =
      (let next_player := g.players.getD (g.players.indexOf p + 1) ""
       let pr := prepare_batch_transfer g p
       let g1 : Game := { g with player_coins := setKey g.player_coins p pr.2 }
       let g2 : Game :=
         if hasKey g1.player_coins next_player then g1
         else { g1 with player_coins := setKey g1.player_coins next_player [] }
       let arriving := lookupD g2.player_coins next_player []
         ++ List.replicate pr.1.length false
       let g3 : Game :=
         { g2 with player_coins := setKey g2.player_coins next_player arriving }
       let g4 := record_sent_batch g3 p pr.1.length next_player t
       (check_and_end_all_finished_timers g4 t, true)) := by
  unfold send_batch
  rw [if_neg (by rw [hc]; exact Bool.false_ne_true)]
  dsimp only
  rw [if_neg hidx]

/-! Chain-position bookkeeping. -/

theorem indexOf_eq_last_iff (l : List String) (p : String) (hp : p ∈ l)
    (hnd : l.Nodup) : l.indexOf p = l.length - 1 ↔ l.getLast? = some p := by
  have hne : l ≠ [] := List.ne_nil_of_mem hp
  have hlt : l.indexOf p < l.length := List.indexOf_lt_length.mpr hp
  have hpos : 0 < l.length := List.length_pos.mpr hne
  have hlast : l.getLast? = some (l.getLast hne) :=
    List.getLast?_eq_getLast_of_ne_nil hne
  have hlt2 : l.length - 1 < l.length := by omega
  have hg : l.getLast hne = l[l.length - 1] :=
    List.getLast_eq_getElem l hne
  constructor
  · intro h
    have hidx : l[l.indexOf p] = p := List.getElem_indexOf hlt
    rw [hlast, hg]
    congr 1
    rw [← hidx]
    congr 1
    omega
  · intro h
    rw [hlast, hg] at h
    have hpl : l[l.length - 1] = p := by
      injection h with h
    rw [← hpl]
    exact List.indexOf_getElem hnd (l.length - 1) hlt2

theorem send_batch_success_iff (g : Game) (p : String) (t : Nat)
    (hp : p ∈ g.players) (hnd : g.players.Nodup) :
    (send_batch g p t).2 = true ↔
      (can_send_batch g p = true
        ∧ (g.players.getLast? = some p →
            heads_count (lookupD g.player_coins p []) ≠ 0)) := by
  by_cases hc : can_send_batch g p
  · by_cases hidx : g.players.indexOf p = g.players.length - 1
    · have hlast : g.players.getLast? = some p :=
        (indexOf_eq_last_iff g.players p hp hnd).mp hidx
      rw [send_batch_last_eq g p t hc hidx]
      dsimp only
      by_cases hh : heads_count (lookupD g.player_coins p []) = 0
      · rw [send_to_completion_no_heads g p t hlast hh]
        simp [hc, hlast, hh]
      · rw [send_to_completion_success_eq g p t hlast hh]
        simp [hc, hh]
    · rw [send_batch_nonlast_eq g p t hc hidx]
      have hlast : g.players.getLast? ≠ some p := by
        intro h
        exact hidx ((indexOf_eq_last_iff g.players p hp hnd).mpr h)
      simp [hc, hlast]
  · rw [send_batch_not_can_send g p t (by simpa using hc)]
    simp [by simpa using hc]

theorem lookup_coins_caeft (g : Game) (t : Nat) (q : String) (d : List Bool) :
    lookupD (check_and_end_all_finished_timers g t).player_coins q d
      = lookupD g.player_coins q d := by
  obtain ⟨pt, h⟩ := check_and_end_all_finished_timers_shape g t
  rw [h]

theorem lookup_coins_record (g : Game) (p : String) (c : Nat) (tp : String)
    (t : Nat) (q : String) (d : List Bool) :
    lookupD (record_sent_batch g p c tp t).player_coins q d
      = lookupD g.player_coins q d := by
  obtain ⟨sc, h⟩ := record_sent_batch_shape g p c tp t
  rw [h]

theorem lookup_sent_caeft (g : Game) (t : Nat) (q : String) (d : List SentBatch) :
    lookupD (check_and_end_all_finished_timers g t).sent_coins q d
      = lookupD g.sent_coins q d := by
  obtain ⟨pt, h⟩ := check_and_end_all_finished_timers_shape g t
  rw [h]

theorem next_player_ne (l : List String) (p : String) (hp : p ∈ l)
    (hnd : l.Nodup) (hidx : l.indexOf p ≠ l.length - 1) :
    l.getD (l.indexOf p + 1) "" ≠ p ∧ l.getD (l.indexOf p + 1) "" ∈ l := by
  have hlt : l.indexOf p < l.length := List.indexOf_lt_length.mpr hp
  have hpos : 0 < l.length := by omega
  have hlt1 : l.indexOf p + 1 < l.length := by omega
  have hg : l.getD (l.indexOf p + 1) "" = l[l.indexOf p + 1] :=
    List.getD_eq_getElem l "" hlt1
  constructor
  · rw [hg]
    intro h
    have hp2 : l[l.indexOf p] = p := List.getElem_indexOf hlt
    have h2 : l[l.indexOf p + 1] = l[l.indexOf p] := h.trans hp2.symm
    have := (List.Nodup.getElem_inj_iff hnd).mp h2
    omega
  · rw [hg]
    exact List.getElem_mem _

/-- C3 counterexample: for the last chain player with an empty coin list,
`can_send_batch` is true (the final-partial-batch clause holds vacuously at
`0 == 0`) yet `send_batch` fails (`send_to_completion` rejects
`heads_count == 0`), so "send succeeds iff `can_send` was true immediately
prior" is false as stated. -/
theorem send_legality_counterexample :
    can_send_batch empty_last_game "b" = true
    ∧ (send_batch empty_last_game "b" 9).2 = false
    ∧ (send_batch empty_last_game "b" 9).1 = empty_last_game := by
  exact ⟨by decide, by decide, by decide⟩

/-- C3 (amended): `send_batch` succeeds iff `can_send_batch` was true
immediately prior AND, when the player is the last of the chain, at least one
of its units is active; and after a successful send by a non-last player the
units arriving at the next chain position are all appended in the inactive
(`false`) state, regardless of their state before moving. -/
theorem send_legality (g : Game) (p : String) (t : Nat)
    (hp : p ∈ g.players) (hnd : g.players.Nodup) :
    ((send_batch g p t).2 = true ↔
      (can_send_batch g p = true
        ∧ (g.players.getLast? = some p →
            heads_count (lookupD g.player_coins p []) ≠ 0)))
    ∧ (g.players.indexOf p ≠ g.players.length - 1 →
        can_send_batch g p = true →
        lookupD (send_batch g p t).1.player_coins
            (g.players.getD (g.players.indexOf p + 1) "") []
          = lookupD g.player_coins
              (g.players.getD (g.players.indexOf p + 1) "") []
            ++ List.replicate (prepare_batch_transfer g p).1.length false) := by
  refine ⟨send_batch_success_iff g p t hp hnd, fun hidx hc => ?_⟩
  obtain ⟨hne, _⟩ := next_player_ne g.players p hp hnd hidx
  rw [send_batch_nonlast_eq g p t hc hidx]
  dsimp only
  rw [lookup_coins_caeft, lookup_coins_record, lookupD_setKey_self]
  by_cases hk : hasKey (setKey g.player_coins p
      (prepare_batch_transfer g p).2) (g.players.getD (g.players.indexOf p + 1) "")
  · rw [if_pos hk]
    dsimp only
    rw [lookupD_setKey_ne _ _ _ hne]
  · rw [if_neg hk]
    dsimp only
    rw [lookupD_setKey_self]
    rw [hasKey_setKey_ne _ _ hne] at hk
    rw [lookupD_eq_default_of_not_hasKey _ _ _ (by simpa using hk)]

theorem send_legality_witness :
    (((send_batch send_witness_game "a" 5).2 = true ↔
      (can_send_batch send_witness_game "a" = true
        ∧ (send_witness_game.players.getLast? = some "a" →
            heads_count (lookupD send_witness_game.player_coins "a" []) ≠ 0)))
    ∧ (send_witness_game.players.indexOf "a"
          ≠ send_witness_game.players.length - 1 →
        can_send_batch send_witness_game "a" = true →
        lookupD (send_batch send_witness_game "a" 5).1.player_coins
            (send_witness_game.players.getD
              (send_witness_game.players.indexOf "a" + 1) "") []
          = lookupD send_witness_game.player_coins
              (send_witness_game.players.getD
                (send_witness_game.players.indexOf "a" + 1) "") []
            ++ List.replicate
                (prepare_batch_transfer send_witness_game "a").1.length false))
    ∧ (send_batch send_witness_game "a" 5).2 = true := by
  exact ⟨send_legality send_witness_game "a" 5 (by decide) (by decide),
    by decide⟩

/-! ## C10 — the empty-hand send -/

/-- C10: a player whose coin list is present but empty can always send
(`0 == 0` satisfies the final-partial-batch clause), and a non-last such
player's `send_batch` succeeds, moves no coins (every player's coin list is
unchanged), and appends a `SentBatch` record with count 0 to that player's
send history. -/
theorem empty_hand_send_spec (g : Game) (p : String) (t : Nat)
    (hkey : hasKey g.player_coins p = true)
    (hempty : lookupD g.player_coins p [] = [])
    (hp : p ∈ g.players) (hnd : g.players.Nodup)
    (hidx : g.players.indexOf p ≠ g.players.length - 1) :
    can_send_batch g p = true
    ∧ (send_batch g p t).2 = true
    ∧ (∀ q, lookupD (send_batch g p t).1.player_coins q []
        = lookupD g.player_coins q [])
    ∧ lookupD (send_batch g p t).1.sent_coins p []
        = lookupD g.sent_coins p []
          ++ [{ count := 0, timestamp := t,
                to_player := g.players.getD (g.players.indexOf p + 1) "" }] := by
  have hpr : prepare_batch_transfer g p = ([], []) := by
    unfold prepare_batch_transfer
    rw [hempty]
    simp [prepare_batch_transfer_loop]
  have hc : can_send_batch g p = true := by
    unfold can_send_batch
    rw [if_neg (by rw [hkey]; exact Bool.false_ne_true)]
    dsimp only
    rw [hempty]
    simp [heads_count]
  obtain ⟨hne, _⟩ := next_player_ne g.players p hp hnd hidx
  have hsb := send_batch_nonlast_eq g p t hc hidx
  refine ⟨hc, by rw [hsb], ?_, ?_⟩
  · intro q
    rw [hsb]
    dsimp only
    rw [lookup_coins_caeft, lookup_coins_record, hpr]
    simp only [List.length_nil, List.replicate_zero, List.append_nil]
    by_cases hk : hasKey (setKey g.player_coins p ([] : List Bool))
        (g.players.getD (g.players.indexOf p + 1) "")
    · rw [if_pos hk]
      dsimp only
      by_cases hq : q = g.players.getD (g.players.indexOf p + 1) ""
      · subst hq
        rw [lookupD_setKey_self, lookupD_setKey_ne _ _ _ hne]
      · rw [lookupD_setKey_ne _ _ _ hq]
        by_cases hqp : q = p
        · subst hqp
          rw [lookupD_setKey_self, hempty]
        · rw [lookupD_setKey_ne _ _ _ hqp]
    · rw [if_neg hk]
      dsimp only
      rw [hasKey_setKey_ne _ _ hne] at hk
      by_cases hq : q = g.players.getD (g.players.indexOf p + 1) ""
      · subst hq
        rw [lookupD_setKey_self, lookupD_setKey_self,
          lookupD_eq_default_of_not_hasKey _ _ _ (by simpa using hk)]
      · rw [lookupD_setKey_ne _ _ _ hq, lookupD_setKey_ne _ _ _ hq]
        by_cases hqp : q = p
        · subst hqp
          rw [lookupD_setKey_self, hempty]
        · rw [lookupD_setKey_ne _ _ _ hqp]
  · rw [hsb]
    dsimp only
    rw [lookup_sent_caeft, hpr]
    dsimp only
    rw [record_sent_batch_lookup_self]
    simp only [List.length_nil]
    congr 1
    split <;> rfl

theorem empty_hand_send_witness :
    (can_send_batch empty_hand_game "a" = true
    ∧ (send_batch empty_hand_game "a" 7).2 = true
    ∧ (∀ q, lookupD (send_batch empty_hand_game "a" 7).1.player_coins q []
        = lookupD empty_hand_game.player_coins q [])
    ∧ lookupD (send_batch empty_hand_game "a" 7).1.sent_coins "a" []
        = lookupD empty_hand_game.sent_coins "a" []
          ++ [{ count := 0, timestamp := 7,
                to_player := empty_hand_game.players.getD
                  (empty_hand_game.players.indexOf "a" + 1) "" }]) := by
  exact empty_hand_send_spec empty_hand_game "a" 7 (by decide) (by decide)
    (by decide) (by decide) (by decide)

/-! ## Projection lemmas for the timer sweep and the send-history record -/

theorem caeft_player_coins (g : Game) (t : Nat) :
    (check_and_end_all_finished_timers g t).player_coins = g.player_coins := by
  obtain ⟨pt, h⟩ := check_and_end_all_finished_timers_shape g t
  rw [h]

theorem caeft_sent_coins (g : Game) (t : Nat) :
    (check_and_end_all_finished_timers g t).sent_coins = g.sent_coins := by
  obtain ⟨pt, h⟩ := check_and_end_all_finished_timers_shape g t
  rw [h]

theorem caeft_players (g : Game) (t : Nat) :
    (check_and_end_all_finished_timers g t).players = g.players := by
  obtain ⟨pt, h⟩ := check_and_end_all_finished_timers_shape g t
  rw [h]

theorem caeft_first_delivery (g : Game) (t : Nat) :
    (check_and_end_all_finished_timers g t).first_delivery_at
      = g.first_delivery_at := by
  obtain ⟨pt, h⟩ := check_and_end_all_finished_timers_shape g t
  rw [h]

theorem caeft_lead_time (g : Game) (t : Nat) :
    (check_and_end_all_finished_timers g t).lead_time_seconds
      = g.lead_time_seconds := by
  obtain ⟨pt, h⟩ := check_and_end_all_finished_timers_shape g t
  rw [h]

theorem record_players (g : Game) (p : String) (c : Nat) (tp : String)
    (t : Nat) : (record_sent_batch g p c tp t).players = g.players := by
  obtain ⟨sc, h⟩ := record_sent_batch_shape g p c tp t
  rw [h]

theorem record_player_coins (g : Game) (p : String) (c : Nat) (tp : String)
    (t : Nat) : (record_sent_batch g p c tp t).player_coins = g.player_coins := by
  obtain ⟨sc, h⟩ := record_sent_batch_shape g p c tp t
  rw [h]

theorem record_first_delivery (g : Game) (p : String) (c : Nat) (tp : String)
    (t : Nat) :
    (record_sent_batch g p c tp t).first_delivery_at = g.first_delivery_at := by
  obtain ⟨sc, h⟩ := record_sent_batch_shape g p c tp t
  rw [h]

theorem record_lead_time (g : Game) (p : String) (c : Nat) (tp : String)
    (t : Nat) :
    (record_sent_batch g p c tp t).lead_time_seconds = g.lead_time_seconds := by
  obtain ⟨sc, h⟩ := record_sent_batch_shape g p c tp t
  rw [h]

/-! ## Failure and success inversion for the send operations -/

theorem send_to_completion_fail (g : Game) (p : String) (t : Nat)
    (h : (send_to_completion g p t).2 = false) :
    (send_to_completion g p t).1 = g := by
  by_cases hl : g.players.getLast? = some p
  · by_cases hh : heads_count (lookupD g.player_coins p []) = 0
    · rw [send_to_completion_no_heads g p t hl hh]
    · rw [send_to_completion_success_eq g p t hl hh] at h
      simp at h
  · rw [send_to_completion_not_last g p t hl]

theorem send_to_completion_success_inv (g : Game) (p : String) (t : Nat)
    (hs : (send_to_completion g p t).2 = true) :
    g.players.getLast? = some p
    ∧ heads_count (lookupD g.player_coins p []) ≠ 0 := by
  by_cases hl : g.players.getLast? = some p
  · by_cases hh : heads_count (lookupD g.player_coins p []) = 0
    · rw [send_to_completion_no_heads g p t hl hh] at hs
      simp at hs
    · exact ⟨hl, hh⟩
  · rw [send_to_completion_not_last g p t hl] at hs
    simp at hs

theorem send_batch_fail (g : Game) (p : String) (t : Nat)
    (h : (send_batch g p t).2 = false) : (send_batch g p t).1 = g := by
  by_cases hc : can_send_batch g p
  · by_cases hidx : g.players.indexOf p = g.players.length - 1
    · rw [send_batch_last_eq g p t hc hidx] at h ⊢
      dsimp only at h ⊢
      by_cases hr : (send_to_completion g p t).2 = true
      · rw [if_pos hr] at h
        simp [hr] at h
      · rw [if_neg hr] at h ⊢
        exact send_to_completion_fail g p t (by simpa using hr)
    · rw [send_batch_nonlast_eq g p t hc hidx] at h
      simp at h
  · rw [send_batch_not_can_send g p t (by simpa using hc)]

/-! ## Immutability of the first-delivery stamp and the lead time -/

theorem send_to_completion_delivery_frozen (g : Game) (p : String) (t d : Nat)
    (hd : g.first_delivery_at = some d) :
    (send_to_completion g p t).1.first_delivery_at = some d
    ∧ (send_to_completion g p t).1.lead_time_seconds = g.lead_time_seconds := by
  by_cases hl : g.players.getLast? = some p
  · by_cases hh : heads_count (lookupD g.player_coins p []) = 0
    · rw [send_to_completion_no_heads g p t hl hh]
      exact ⟨hd, rfl⟩
    · rw [send_to_completion_success_eq g p t hl hh]
      dsimp only
      rw [if_neg (by simp [hd])]
      rw [caeft_first_delivery, caeft_lead_time, record_first_delivery,
        record_lead_time]
      exact ⟨hd, rfl⟩
  · rw [send_to_completion_not_last g p t hl]
    exact ⟨hd, rfl⟩

theorem applyOp_delivery_frozen (g : Game) (op : Op) (d : Nat)
    (hd : g.first_delivery_at = some d) :
    (applyOp g op).first_delivery_at = some d
    ∧ (applyOp g op).lead_time_seconds = g.lead_time_seconds := by
  cases op with
  | flip p i t =>
    show (flip_coin g p i t).1.first_delivery_at = some d
      ∧ (flip_coin g p i t).1.lead_time_seconds = g.lead_time_seconds
    rcases flip_coin_spec g p i t with hrej | ⟨_, _, _, pt, ff, hsucc, _⟩
    · rw [hrej]
      exact ⟨hd, rfl⟩
    · rw [hsucc]
      exact ⟨hd, rfl⟩
  | send p t =>
    show (send_batch g p t).1.first_delivery_at = some d
      ∧ (send_batch g p t).1.lead_time_seconds = g.lead_time_seconds
    by_cases hc : can_send_batch g p
    · by_cases hidx : g.players.indexOf p = g.players.length - 1
      · rw [send_batch_last_eq g p t hc hidx]
        dsimp only
        by_cases hr : (send_to_completion g p t).2 = true
        · rw [if_pos hr]
          dsimp only
          rw [caeft_first_delivery, caeft_lead_time]
          exact send_to_completion_delivery_frozen g p t d hd
        · rw [if_neg hr]
          exact send_to_completion_delivery_frozen g p t d hd
      · rw [send_batch_nonlast_eq g p t hc hidx]
        dsimp only
        rw [caeft_first_delivery, caeft_lead_time, record_first_delivery,
          record_lead_time]
        constructor
        · split <;> exact hd
        · split <;> rfl
    · rw [send_batch_not_can_send g p t (by simpa using hc)]
      exact ⟨hd, rfl⟩
  | complete p t =>
    show (send_to_completion g p t).1.first_delivery_at = some d
      ∧ (send_to_completion g p t).1.lead_time_seconds = g.lead_time_seconds
    exact send_to_completion_delivery_frozen g p t d hd

theorem applyOps_delivery_frozen (ops : List Op) :
    ∀ (g : Game) (d : Nat), g.first_delivery_at = some d →
      (applyOps g ops).first_delivery_at = some d
      ∧ (applyOps g ops).lead_time_seconds = g.lead_time_seconds := by
  induction ops with
  | nil => exact fun g d hd => ⟨hd, rfl⟩
  | cons op rest ih =>
    intro g d hd
    show (applyOps (applyOp g op) rest).first_delivery_at = some d
      ∧ (applyOps (applyOp g op) rest).lead_time_seconds = g.lead_time_seconds
    obtain ⟨hd', hl'⟩ := applyOp_delivery_frozen g op d hd
    obtain ⟨hd'', hl''⟩ := ih (applyOp g op) d hd'
    exact ⟨hd'', hl''.trans hl'⟩

/-- C6: when the first terminal delivery of the round happens (a successful
`send_to_completion` with no delivery recorded yet, a positive batch size and
the round's first flip recorded at `f`), the lead time is computed right
there as `t - f` (first delivery minus first flip), and no later flip, send
or delivery of the round changes the recorded first-delivery stamp or the
lead time. -/
theorem lead_time_computed_once (g : Game) (p : String) (t f : Nat)
    (hb : 0 < g.batch_size)
    (hf : g.first_flip_at = some f)
    (hd : g.first_delivery_at = none)
    (hs : (send_to_completion g p t).2 = true) :
    (send_to_completion g p t).1.first_delivery_at = some t
    ∧ (send_to_completion g p t).1.lead_time_seconds = some (t - f)
    ∧ ∀ ops : List Op,
        (applyOps (send_to_completion g p t).1 ops).first_delivery_at = some t
        ∧ (applyOps (send_to_completion g p t).1 ops).lead_time_seconds
            = some (t - f) := by
  obtain ⟨hl, hh⟩ := send_to_completion_success_inv g p t hs
  have hmain : (send_to_completion g p t).1.first_delivery_at = some t
      ∧ (send_to_completion g p t).1.lead_time_seconds = some (t - f) := by
    rw [send_to_completion_success_eq g p t hl hh]
    dsimp only
    rw [if_pos ⟨by omega, hd⟩]
    rw [caeft_first_delivery, caeft_lead_time, record_first_delivery,
      record_lead_time]
    dsimp only
    rw [hf]
    exact ⟨rfl, rfl⟩
  refine ⟨hmain.1, hmain.2, fun ops => ?_⟩
  obtain ⟨h1, h2⟩ := applyOps_delivery_frozen ops (send_to_completion g p t).1
    t hmain.1
  exact ⟨h1, h2.trans hmain.2⟩

theorem lead_time_computed_once_witness :
    (send_to_completion lead_time_game "b" 30).1.first_delivery_at = some 30
    ∧ (send_to_completion lead_time_game "b" 30).1.lead_time_seconds = some 20
    ∧ (applyOps (send_to_completion lead_time_game "b" 30).1
        [Op.flip "a" 0 40, Op.send "a" 41]).lead_time_seconds = some 20 := by
  have h := lead_time_computed_once lead_time_game "b" 30 10
    (by decide) (by decide) (by decide) (by decide)
  exact ⟨h.1, h.2.1, (h.2.2 [Op.flip "a" 0 40, Op.send "a" 41]).2⟩

/-! ## Ledger initialization lemmas -/

theorem initialize_player_coins_shape (g : Game) (b : Bool) :
    ∃ pc sc pt ff fd lt, initialize_player_coins g b =
      { g with player_coins := pc, sent_coins := sc, player_timers := pt,
               first_flip_at := ff, first_delivery_at := fd,
               lead_time_seconds := lt } := by
  unfold initialize_player_coins
  by_cases hne : g.players = []
  · rw [if_pos hne]
    exact ⟨g.player_coins, g.sent_coins, g.player_timers, g.first_flip_at,
      g.first_delivery_at, g.lead_time_seconds, rfl⟩
  · rw [if_neg hne]
    dsimp only
    unfold initialize_player_timers
    dsimp only
    cases b
    · rw [if_neg (by simp)]
      exact ⟨_, _, _, _, _, _, rfl⟩
    · rw [if_pos rfl]
      exact ⟨_, _, _, _, _, _, rfl⟩

theorem initialize_player_coins_players (g : Game) (b : Bool) :
    (initialize_player_coins g b).players = g.players := by
  obtain ⟨pc, sc, pt, ff, fd, lt, h⟩ := initialize_player_coins_shape g b
  rw [h]

theorem initialize_player_coins_state (g : Game) (b : Bool) :
    (initialize_player_coins g b).state = g.state := by
  obtain ⟨pc, sc, pt, ff, fd, lt, h⟩ := initialize_player_coins_shape g b
  rw [h]

theorem initialize_player_coins_last_active (g : Game) (b : Bool) :
    (initialize_player_coins g b).last_active_at = g.last_active_at := by
  obtain ⟨pc, sc, pt, ff, fd, lt, h⟩ := initialize_player_coins_shape g b
  rw [h]

theorem initialize_player_coins_head (g : Game) (b : Bool)
    (hne : g.players ≠ []) :
    lookupD (initialize_player_coins g b).player_coins
        (g.players.headD "") []
      = List.replicate TOTAL_COINS false := by
  unfold initialize_player_coins
  rw [if_neg hne]
  dsimp only
  unfold initialize_player_timers
  dsimp only
  cases b
  · rw [if_neg (by simp)]
    dsimp only
    rw [lookupD_setKey_self]
  · rw [if_pos rfl]
    dsimp only
    rw [lookupD_setKey_self]

/-! ## C9 — role changes -/

/-- C9 counterexample: promoting spectator `c` to player while the session is
active succeeds and leaves the lifecycle state unchanged, but the coin
ledger is NOT re-initialized: `player_coins` is untouched (no entry for `c`,
chain position 0 keeps its old hand instead of receiving all units
inactive). -/
theorem change_role_promotion_no_reinit :
    (change_role promo_game "c" "player" 99).2 = true
    ∧ (change_role promo_game "c" "player" 99).1.state = GameState.active
    ∧ (change_role promo_game "c" "player" 99).1.player_coins
        = promo_game.player_coins
    ∧ lookupD (change_role promo_game "c" "player" 99).1.player_coins
        ((change_role promo_game "c" "player" 99).1.players.headD "") []
        ≠ List.replicate TOTAL_COINS false := by
  exact ⟨by decide, by decide, by decide, by decide⟩

/-- C9 (amended): a role-change operation never changes the lifecycle state;
and it is a player→spectator demotion performed while the session is Active
(not a spectator→player promotion) that forces the ledger re-initialization,
after which chain position 0 of the remaining roster holds all
`TOTAL_COINS` units in the inactive state. -/
theorem change_role_spec (g : Game) (u r : String) (t : Nat) :
    (change_role g u r t).1.state = g.state
    ∧ (r = "spectator" → (change_role g u r t).2 = true →
        g.state = GameState.active → g.players.erase u ≠ [] →
        lookupD (change_role g u r t).1.player_coins
            ((g.players.erase u).headD "") []
          = List.replicate TOTAL_COINS false) := by
  unfold change_role
  by_cases hv : validate_role_change g u r
  · rw [if_neg (by rw [hv]; exact Bool.false_ne_true)]
    dsimp only
    by_cases hr : r = "player"
    · rw [if_pos hr]
      exact ⟨rfl, fun hrs _ _ _ => absurd (hr.symm.trans hrs) (by decide)⟩
    · rw [if_neg hr]
      by_cases hr2 : r = "spectator"
      · rw [if_pos hr2]
        by_cases hact : g.state = GameState.active
        · rw [if_pos hact]
          constructor
          · show (initialize_player_coins _ true).state = g.state
            rw [initialize_player_coins_state]
          · intro _ _ _ hne'
            exact initialize_player_coins_head _ true hne'
        · rw [if_neg hact]
          exact ⟨rfl, fun _ _ hact' _ => absurd hact' hact⟩
      · rw [if_neg hr2]
        exact ⟨rfl, fun hrs => absurd hrs hr2⟩
  · rw [if_pos (by rw [(by simpa using hv : validate_role_change g u r = false)]; rfl)]
    exact ⟨rfl, fun _ hs => absurd hs (by simp)⟩

theorem change_role_spec_witness :
    (change_role demote_game "b" "spectator" 50).1.state = demote_game.state
    ∧ lookupD (change_role demote_game "b" "spectator" 50).1.player_coins
        ((demote_game.players.erase "b").headD "") []
        = List.replicate TOTAL_COINS false := by
  have h := change_role_spec demote_game "b" "spectator" 50
  exact ⟨h.1, h.2 rfl (by decide) rfl (by decide)⟩

/-! ## Cleanup sweep lemmas -/

theorem cleanup_room_players_last_active (g : Game) (now : Nat) :
    (cleanup_room_players g now).last_active_at = g.last_active_at := by
  unfold cleanup_room_players
  by_cases h1 : (g.players.filter (fun _ =>
      decide (now - g.last_active_at < PLAYER_INACTIVITY_THRESHOLD))).length
      < g.players.length
  · rw [if_pos h1]
    dsimp only
    by_cases hst : g.state = GameState.active
    · rw [if_pos hst, initialize_player_coins_last_active]
    · rw [if_neg hst]
  · rw [if_neg h1]

theorem cleanup_room_players_players (g : Game) (now : Nat) :
    (cleanup_room_players g now).players
      = if now - g.last_active_at < PLAYER_INACTIVITY_THRESHOLD
        then g.players else [] := by
  unfold cleanup_room_players
  by_cases hcond : now - g.last_active_at < PLAYER_INACTIVITY_THRESHOLD
  · have hfil : g.players.filter (fun _ =>
        decide (now - g.last_active_at < PLAYER_INACTIVITY_THRESHOLD))
        = g.players := by
      simp [hcond]
    rw [hfil, if_neg (Nat.lt_irrefl _), if_pos hcond]
  · have hfil : g.players.filter (fun _ =>
        decide (now - g.last_active_at < PLAYER_INACTIVITY_THRESHOLD))
        = [] := by
      simp [hcond]
    rw [hfil]
    by_cases hne : g.players = []
    · rw [if_neg (by rw [hne]; simp), if_neg hcond, hne]
    · rw [if_pos (by simpa using List.length_pos.mpr hne)]
      dsimp only
      by_cases hst : g.state = GameState.active
      · rw [if_pos hst, initialize_player_coins_players, if_neg hcond]
      · rw [if_neg hst, if_neg hcond]

theorem mem_unique_key {β : Type} (gs : List (String × β)) (k : String)
    (a b : β) (hnd : (gs.map Prod.fst).Nodup)
    (h1 : (k, a) ∈ gs) (h2 : (k, b) ∈ gs) : a = b := by
  induction gs with
  | nil => simp at h1
  | cons e rest ih =>
    simp only [List.map_cons, List.nodup_cons] at hnd
    rcases List.mem_cons.mp h1 with h1 | h1 <;>
      rcases List.mem_cons.mp h2 with h2 | h2
    · rw [← h1] at h2
      exact congrArg Prod.snd h2.symm
    · exfalso
      apply hnd.1
      rw [← h1]
      exact List.mem_map.mpr ⟨(k, b), h2, rfl⟩
    · exfalso
      apply hnd.1
      rw [← h2]
      exact List.mem_map.mpr ⟨(k, a), h1, rfl⟩
    · exact ih hnd.2 h1 h2

theorem cleanup_fold (now : Nat) (gs : List (String × Game)) :
    ∀ acc : List (String × Game) × List String,
      gs.foldl (fun acc e =>
        let g := cleanup_room_players e.2 now
        if now - g.last_active_at > ROOM_INACTIVITY_THRESHOLD then
          (acc.1, acc.2 ++ [e.1])
        else (acc.1 ++ [(e.1, g)], acc.2)) acc
      = (acc.1 ++ gs.filterMap (fun e =>
            if now - e.2.last_active_at > ROOM_INACTIVITY_THRESHOLD then none
            else some (e.1, cleanup_room_players e.2 now)),
         acc.2 ++ (gs.filter (fun e =>
            decide (now - e.2.last_active_at
              > ROOM_INACTIVITY_THRESHOLD))).map Prod.fst) := by
  induction gs with
  | nil => intro acc; simp
  | cons e rest ih =>
    intro acc
    simp only [List.foldl_cons]
    rw [show (now - (cleanup_room_players e.2 now).last_active_at)
        = now - e.2.last_active_at by rw [cleanup_room_players_last_active]]
    by_cases hcond : now - e.2.last_active_at > ROOM_INACTIVITY_THRESHOLD
    · rw [if_pos hcond, ih]
      simp [List.filterMap_cons, List.filter_cons, hcond]
    · rw [if_neg hcond, ih]
      simp [List.filterMap_cons, List.filter_cons, hcond]

theorem cleanup_eq (gs : List (String × Game)) (now : Nat) :
    cleanup gs now
      = (gs.filterMap (fun e =>
            if now - e.2.last_active_at > ROOM_INACTIVITY_THRESHOLD then none
            else some (e.1, cleanup_room_players e.2 now)),
         (gs.filter (fun e =>
            decide (now - e.2.last_active_at
              > ROOM_INACTIVITY_THRESHOLD))).map Prod.fst) := by
  unfold cleanup
  rw [cleanup_fold now gs ([], [])]
  simp

/-! ## C8 — the inactivity sweep -/

/-- C8 counterexample: at `now = 300` the room's inactivity equals the
player threshold exactly — so no player's inactivity *exceeds* it — and no
per-player clock exists at all, yet the sweep removes every player of the
room at once (the per-player check reads the room-level `last_active_at`);
the room itself stays in the registry. -/
theorem cleanup_player_eviction_counterexample :
    (cleanup [("r", stale_room)] 300).1
        = [("r", { stale_room with players := [] })]
    ∧ (cleanup [("r", stale_room)] 300).2 = []
    ∧ ¬(300 - stale_room.last_active_at > PLAYER_INACTIVITY_THRESHOLD) := by
  exact ⟨by decide, by decide, by decide⟩

/-- C8 (amended): after a sweep at time `now`, a room whose `last_active_at`
is more than the room-inactivity threshold before `now` is absent from the
registry (and reported removed); any other room remains, with its players
governed by the room-level timestamp: the whole roster is kept when
`now - last_active_at` is under the player threshold and emptied otherwise
(individual player inactivity is not tracked). -/
theorem cleanup_sweep_spec (gs : List (String × Game)) (rid : String)
    (g : Game) (now : Nat) (hmem : (rid, g) ∈ gs)
    (hnd : (gs.map Prod.fst).Nodup) :
    (now - g.last_active_at > ROOM_INACTIVITY_THRESHOLD →
      rid ∉ (cleanup gs now).1.map Prod.fst ∧ rid ∈ (cleanup gs now).2)
    ∧ (¬(now - g.last_active_at > ROOM_INACTIVITY_THRESHOLD) →
        (rid, cleanup_room_players g now) ∈ (cleanup gs now).1)
    ∧ (cleanup_room_players g now).players
        = (if now - g.last_active_at < PLAYER_INACTIVITY_THRESHOLD
           then g.players else []) := by
  rw [cleanup_eq]
  refine ⟨fun h => ⟨?_, ?_⟩, fun h => ?_, cleanup_room_players_players g now⟩
  · intro hin
    obtain ⟨e', he'mem, he'fst⟩ := List.mem_map.mp hin
    obtain ⟨e, hemem, hesome⟩ := List.mem_filterMap.mp he'mem
    by_cases hcond : now - e.2.last_active_at > ROOM_INACTIVITY_THRESHOLD
    · rw [if_pos hcond] at hesome
      exact absurd hesome (by simp)
    · rw [if_neg hcond] at hesome
      have he1 : e.1 = rid := by
        have := congrArg Prod.fst (Option.some.inj hesome)
        simpa using this.trans he'fst
      have he2 : e.2 = g := by
        apply mem_unique_key gs rid e.2 g hnd
        · rw [← he1]; exact hemem
        · exact hmem
      rw [he2] at hcond
      exact hcond h
  · exact List.mem_map.mpr ⟨(rid, g),
      List.mem_filter.mpr ⟨hmem, by simpa using h⟩, rfl⟩
  · exact List.mem_filterMap.mpr ⟨(rid, g), hmem, by rw [if_neg h]⟩

theorem cleanup_sweep_spec_witness :
    ("x" ∉ (cleanup [("x", old_room), ("y", fresh_room)] 4000).1.map Prod.fst
      ∧ "x" ∈ (cleanup [("x", old_room), ("y", fresh_room)] 4000).2)
    ∧ ("y", cleanup_room_players fresh_room 4000)
        ∈ (cleanup [("x", old_room), ("y", fresh_room)] 4000).1
    ∧ (cleanup_room_players fresh_room 4000).players = fresh_room.players := by
  have hx := cleanup_sweep_spec [("x", old_room), ("y", fresh_room)] "x"
    old_room 4000 (by decide) (by decide)
  have hy := cleanup_sweep_spec [("x", old_room), ("y", fresh_room)] "y"
    fresh_room 4000 (by decide) (by decide)
  refine ⟨hx.1 (by decide), hy.2.1 (by decide), ?_⟩
  rw [hy.2.2]
  decide

/-! ## Small helpers for the invariant proofs -/

theorem heads_count_pos_hasKey (m : List (String × List Bool)) (p : String)
    (hh : heads_count (lookupD m p []) ≠ 0) : hasKey m p = true := by
  by_cases hk : hasKey m p
  · exact hk
  · rw [lookupD_eq_default_of_not_hasKey m p [] (by simpa using hk)] at hh
    exact absurd rfl hh

theorem can_send_batch_hasKey (g : Game) (p : String)
    (hc : can_send_batch g p = true) : hasKey g.player_coins p = true := by
  by_cases hk : hasKey g.player_coins p
  · exact hk
  · unfold can_send_batch at hc
    rw [if_pos (by rw [(by simpa using hk :
      hasKey g.player_coins p = false)]; rfl)] at hc
    exact absurd hc (by simp)

theorem hasKey_setKey_mono (m : List (String × α)) (k q : String) (v : α)
    (h : hasKey m q = true) : hasKey (setKey m k v) q = true := by
  by_cases hqk : q = k
  · subst hqk
    exact hasKey_setKey_self m q v
  · rw [hasKey_setKey_ne m v hqk]
    exact h

theorem prepare_batch_transfer_empty (g : Game) (p : String)
    (h : lookupD g.player_coins p [] = []) :
    prepare_batch_transfer g p = ([], []) := by
  unfold prepare_batch_transfer
  rw [h]
  simp [prepare_batch_transfer_loop]

theorem mem_of_keys (g : Game) (p : String)
    (hkeys : g.player_coins.map Prod.fst = g.players)
    (hk : hasKey g.player_coins p = true) : p ∈ g.players := by
  rw [← hkeys]
  exact (hasKey_iff_mem_keys g.player_coins p).mp hk

theorem hasKey_of_mem (m : List (String × α)) (l : List String) (p : String)
    (hkeys : m.map Prod.fst = l) (hp : p ∈ l) : hasKey m p = true := by
  rw [hasKey_iff_mem_keys, hkeys]
  exact hp

theorem mem_of_getLast?_eq (l : List String) (a : String)
    (h : l.getLast? = some a) : a ∈ l := by
  have hne : l ≠ [] := by
    intro he
    rw [he] at h
    simp at h
  rw [List.getLast?_eq_getLast_of_ne_nil hne] at h
  have hmem := List.getLast_mem hne
  rwa [Option.some.inj h] at hmem

theorem indexOf_getD_self (l : List String) (p : String) (hp : p ∈ l) :
    l.getD (l.indexOf p) "" = p := by
  have hlt : l.indexOf p < l.length := List.indexOf_lt_length.mpr hp
  rw [List.getD_eq_getElem l "" hlt]
  exact List.getElem_indexOf hlt

theorem indexOf_getD (l : List String) (i : Nat) (hnd : l.Nodup)
    (hi : i < l.length) : l.indexOf (l.getD i "") = i := by
  rw [List.getD_eq_getElem l "" hi]
  exact List.indexOf_getElem hnd i hi

theorem lookupD_map_const {α : Type} (l : List String) (k : String) (c : α) :
    lookupD (l.map (fun p => (p, c))) k c = c := by
  induction l with
  | nil => rfl
  | cons a rest ih =>
    by_cases h : a = k <;> simp [lookupD, h, ih]

theorem keys_map_pair {α : Type} (l : List String) (c : α) :
    (l.map (fun p => (p, c))).map Prod.fst = l := by
  induction l with
  | nil => rfl
  | cons a rest ih => simp only [List.map_cons, ih]

theorem sumLen_map_nil (l : List String) :
    sumLen (l.map (fun p => (p, ([] : List Bool)))) = 0 := by
  induction l with
  | nil => rfl
  | cons a rest ih => simp [sumLen, List.map_cons] at ih ⊢; exact ih

/-! ## Per-operation footprints used by the invariants -/

theorem flip_players (g : Game) (p : String) (i t : Nat) :
    (flip_coin g p i t).1.players = g.players := by
  rcases flip_coin_spec g p i t with hrej | ⟨_, _, _, pt, ff, hsucc, _⟩
  · rw [hrej]
  · rw [hsucc]

theorem flip_sent (g : Game) (p : String) (i t : Nat) :
    (flip_coin g p i t).1.sent_coins = g.sent_coins := by
  rcases flip_coin_spec g p i t with hrej | ⟨_, _, _, pt, ff, hsucc, _⟩
  · rw [hrej]
  · rw [hsucc]

theorem flip_coins_keys (g : Game) (p : String) (i t : Nat) :
    (flip_coin g p i t).1.player_coins.map Prod.fst
      = g.player_coins.map Prod.fst := by
  rcases flip_coin_spec g p i t with hrej | ⟨hk, _, _, pt, ff, hsucc, _⟩
  · rw [hrej]
  · rw [hsucc]
    exact keys_setKey_of_hasKey _ _ _ hk

theorem flip_lookup_length (g : Game) (p : String) (i t : Nat) (q : String) :
    (lookupD (flip_coin g p i t).1.player_coins q []).length
      = (lookupD g.player_coins q []).length := by
  rcases flip_coin_spec g p i t with hrej | ⟨hk, _, _, pt, ff, hsucc, _⟩
  · rw [hrej]
  · rw [hsucc]
    dsimp only
    by_cases hq : q = p
    · subst hq
      rw [lookupD_setKey_self, List.length_set]
    · rw [lookupD_setKey_ne _ _ _ hq]

theorem flip_sumLen (g : Game) (p : String) (i t : Nat) :
    sumLen (flip_coin g p i t).1.player_coins = sumLen g.player_coins := by
  rcases flip_coin_spec g p i t with hrej | ⟨hk, _, _, pt, ff, hsucc, _⟩
  · rw [hrej]
  · rw [hsucc]
    dsimp only
    have h := sumLen_setKey g.player_coins p
      ((lookupD g.player_coins p []).set i true)
    rw [List.length_set] at h
    omega

/-! ## Canonical success equations -/

/-- A successful `send_to_completion` in canonical form: up to the three
timing fields, it removes the completed units from the last player's hand,
records them to COMPLETED, and runs the timer sweep. -/
theorem send_to_completion_success_eq2 (g : Game) (p : String) (t : Nat)
    (hl : g.players.getLast? = some p)
    (hh : heads_count (lookupD g.player_coins p []) ≠ 0) :
    ∃ ff fd lt,
      send_to_completion g p t =
        (check_and_end_all_finished_timers (record_sent_batch
          { g with first_flip_at := ff, first_delivery_at := fd,
                   lead_time_seconds := lt,
                   player_coins := setKey g.player_coins p
                     (prepare_completion_transfer (lookupD g.player_coins p [])
                       (min (heads_count (lookupD g.player_coins p []))
                         g.batch_size)).2 }
          p (prepare_completion_transfer (lookupD g.player_coins p [])
              (min (heads_count (lookupD g.player_coins p []))
                g.batch_size)).1.length
          "COMPLETED" t) t, true) := by
  rw [send_to_completion_success_eq g p t hl hh]
  dsimp only
  split
  · split
    · exact ⟨g.first_flip_at, some t, some (t - _), rfl⟩
    · exact ⟨g.first_flip_at, some t, g.lead_time_seconds, rfl⟩
  · exact ⟨g.first_flip_at, g.first_delivery_at, g.lead_time_seconds, rfl⟩

/-- A successful non-last `send_batch` in canonical form. -/
theorem send_batch_nonlast_eq2 (g : Game) (p : String) (t : Nat)
    (hc : can_send_batch g p = true)
    (hidx : g.players.indexOf p ≠ g.players.length - 1)
    (hne : g.players.getD (g.players.indexOf p + 1) "" ≠ p)
    (hkn : hasKey g.player_coins
      (g.players.getD (g.players.indexOf p + 1) "") = true) :
    send_batch g p t =
      (check_and_end_all_finished_timers (record_sent_batch
        { g with
          player_coins :=
            setKey (setKey g.player_coins p (prepare_batch_transfer g p).2)
              (g.players.getD (g.players.indexOf p + 1) "")
              (lookupD g.player_coins
                  (g.players.getD (g.players.indexOf p + 1) "") []
                ++ List.replicate (prepare_batch_transfer g p).1.length false) }
        p (prepare_batch_transfer g p).1.length
        (g.players.getD (g.players.indexOf p + 1) "") t) t, true) := by
  rw [send_batch_nonlast_eq g p t hc hidx]
  dsimp only
  rw [if_pos (hasKey_setKey_mono g.player_coins p
    (g.players.getD (g.players.indexOf p + 1) "")
    (prepare_batch_transfer g p).2 hkn)]
  rw [lookupD_setKey_ne _ _ _ hne]

/-! ## Total-completed bookkeeping -/

theorem get_total_completed_coins_congr (g g' : Game)
    (h1 : g'.players = g.players) (h2 : g'.sent_coins = g.sent_coins) :
    get_total_completed_coins g' = get_total_completed_coins g := by
  unfold get_total_completed_coins
  rw [h1, h2]

theorem record_hasKey_self (g : Game) (p : String) (c : Nat) (tp : String)
    (t : Nat) :
    hasKey (record_sent_batch g p c tp t).sent_coins p = true := by
  unfold record_sent_batch
  by_cases h : hasKey g.sent_coins p
  · rw [if_pos h]
    dsimp only
    exact hasKey_setKey_self _ _ _
  · rw [if_neg h]
    dsimp only
    exact hasKey_setKey_self _ _ _

theorem record_hasKey_ne (g : Game) (p : String) (c : Nat) (tp : String)
    (t : Nat) {q : String} (hq : q ≠ p) :
    hasKey (record_sent_batch g p c tp t).sent_coins q
      = hasKey g.sent_coins q := by
  unfold record_sent_batch
  by_cases h : hasKey g.sent_coins p
  · rw [if_pos h]
    dsimp only
    exact hasKey_setKey_ne _ _ hq
  · rw [if_neg h]
    dsimp only
    rw [hasKey_setKey_ne _ _ hq, hasKey_setKey_ne _ _ hq]

theorem get_total_completed_record_last (g : Game) (p : String) (c t : Nat)
    (hl : g.players.getLast? = some p)
    (hks : hasKey g.sent_coins p = true) :
    get_total_completed_coins (record_sent_batch g p c "COMPLETED" t)
      = get_total_completed_coins g + c := by
  have hne : g.players ≠ [] := by
    intro he
    rw [he] at hl
    simp at hl
  unfold get_total_completed_coins
  rw [record_players, if_neg hne, if_neg hne, hl]
  dsimp only
  rw [record_hasKey_self, hks, if_neg (by decide), if_neg (by decide)]
  rw [record_sent_batch_lookup_self, List.foldl_append]
  simp

theorem get_total_completed_record_ne (g : Game) (q : String) (c : Nat)
    (tp : String) (t : Nat) (hq : g.players.getLast? ≠ some q) :
    get_total_completed_coins (record_sent_batch g q c tp t)
      = get_total_completed_coins g := by
  unfold get_total_completed_coins
  rw [record_players]
  by_cases hne : g.players = []
  · rw [if_pos hne, if_pos hne]
  · rw [if_neg hne, if_neg hne]
    cases hlast : g.players.getLast? with
    | none => rfl
    | some last =>
      have hql : last ≠ q := by
        intro h
        rw [h] at hlast
        exact hq hlast
      dsimp only
      rw [record_hasKey_ne _ _ _ _ _ hql,
        record_sent_batch_lookup_ne _ _ _ _ _ hql]

/-! ## Shape corollaries with an abstract modified game -/

theorem send_to_completion_shape (g : Game) (p : String) (t : Nat)
    (hl : g.players.getLast? = some p)
    (hh : heads_count (lookupD g.player_coins p []) ≠ 0) :
    ∃ g0 : Game,
      g0.players = g.players ∧ g0.sent_coins = g.sent_coins
      ∧ g0.player_coins = setKey g.player_coins p
          (prepare_completion_transfer (lookupD g.player_coins p [])
            (min (heads_count (lookupD g.player_coins p [])) g.batch_size)).2
      ∧ send_to_completion g p t =
          (check_and_end_all_finished_timers (record_sent_batch g0 p
            (prepare_completion_transfer (lookupD g.player_coins p [])
              (min (heads_count (lookupD g.player_coins p []))
                g.batch_size)).1.length
            "COMPLETED" t) t, true) := by
  obtain ⟨ff, fd, lt, heq⟩ := send_to_completion_success_eq2 g p t hl hh
  refine ⟨_, ?_, ?_, ?_, heq⟩ <;> rfl

theorem send_batch_nonlast_shape (g : Game) (p : String) (t : Nat)
    (hc : can_send_batch g p = true)
    (hidx : g.players.indexOf p ≠ g.players.length - 1)
    (hne : g.players.getD (g.players.indexOf p + 1) "" ≠ p)
    (hkn : hasKey g.player_coins
      (g.players.getD (g.players.indexOf p + 1) "") = true) :
    ∃ g0 : Game,
      g0.players = g.players ∧ g0.sent_coins = g.sent_coins
      ∧ g0.player_coins
          = setKey (setKey g.player_coins p (prepare_batch_transfer g p).2)
              (g.players.getD (g.players.indexOf p + 1) "")
              (lookupD g.player_coins
                  (g.players.getD (g.players.indexOf p + 1) "") []
                ++ List.replicate (prepare_batch_transfer g p).1.length false)
      ∧ send_batch g p t =
          (check_and_end_all_finished_timers (record_sent_batch g0 p
            (prepare_batch_transfer g p).1.length
            (g.players.getD (g.players.indexOf p + 1) "") t) t, true) := by
  rw [send_batch_nonlast_eq2 g p t hc hidx hne hkn]
  refine ⟨_, ?_, ?_, ?_, rfl⟩ <;> rfl

theorem prepare_completion_transfer_length (l : List Bool) (k : Nat) :
    (prepare_completion_transfer l k).1.length
      + (prepare_completion_transfer l k).2.length = l.length := by
  unfold prepare_completion_transfer
  exact prepare_completion_transfer_loop_length k l 0

theorem prepare_batch_transfer_length (g : Game) (p : String) :
    (prepare_batch_transfer g p).1.length + (prepare_batch_transfer g p).2.length
      = (lookupD g.player_coins p []).length := by
  unfold prepare_batch_transfer
  exact prepare_batch_transfer_loop_length g.batch_size _ 0

/-! ## Invariant steps: `send_to_completion` -/

theorem send_to_completion_WF (g : Game) (p : String) (t : Nat) (hWF : WF g) :
    WF (send_to_completion g p t).1 := by
  obtain ⟨hne, hnd, hkc, hks⟩ := hWF
  by_cases hsucc : (send_to_completion g p t).2 = true
  · obtain ⟨hl, hh⟩ := send_to_completion_success_inv g p t hsucc
    obtain ⟨g0, hp0, hs0, hc0, heq⟩ := send_to_completion_shape g p t hl hh
    rw [heq]
    unfold WF
    dsimp only
    rw [caeft_players, record_players, hp0, caeft_player_coins,
      record_player_coins, hc0, caeft_sent_coins]
    refine ⟨hne, hnd, ?_, ?_⟩
    · rw [keys_setKey_of_hasKey _ _ _ (heads_count_pos_hasKey _ _ hh)]
      exact hkc
    · have hks0 : hasKey g0.sent_coins p = true := by
        rw [hs0]
        exact hasKey_of_mem _ _ _ hks (mem_of_getLast?_eq _ _ hl)
      rw [record_sent_batch_keys _ _ _ _ _ hks0, hs0]
      exact hks
  · rw [send_to_completion_fail g p t (by simpa using hsucc)]
    exact ⟨hne, hnd, hkc, hks⟩

theorem send_to_completion_conserved (g : Game) (p : String) (t : Nat)
    (hWF : WF g) (hcons : conserved g) :
    conserved (send_to_completion g p t).1 := by
  obtain ⟨hne, hnd, hkc, hks⟩ := hWF
  by_cases hsucc : (send_to_completion g p t).2 = true
  · obtain ⟨hl, hh⟩ := send_to_completion_success_inv g p t hsucc
    obtain ⟨g0, hp0, hs0, hc0, heq⟩ := send_to_completion_shape g p t hl hh
    unfold conserved at hcons ⊢
    rw [heq]
    dsimp only
    rw [caeft_player_coins, record_player_coins, hc0]
    rw [get_total_completed_coins_congr _ _ (caeft_players _ _)
      (caeft_sent_coins _ _)]
    rw [get_total_completed_record_last g0 p _ t (by rw [hp0]; exact hl)
      (by rw [hs0];
          exact hasKey_of_mem _ _ _ hks (mem_of_getLast?_eq _ _ hl))]
    rw [get_total_completed_coins_congr g g0 hp0 hs0]
    have hsum := sumLen_setKey g.player_coins p
      (prepare_completion_transfer (lookupD g.player_coins p [])
        (min (heads_count (lookupD g.player_coins p [])) g.batch_size)).2
    have hpart := prepare_completion_transfer_length (lookupD g.player_coins p [])
      (min (heads_count (lookupD g.player_coins p [])) g.batch_size)
    omega
  · rw [send_to_completion_fail g p t (by simpa using hsucc)]
    exact hcons

theorem send_to_completion_region (g : Game) (p0 p : String) (t : Nat)
    (hWF : WF g) (hp : p ∈ g.players) (hreg : region_zero g p) :
    region_zero (send_to_completion g p0 t).1 p := by
  obtain ⟨hne, hnd, hkc, hks⟩ := hWF
  by_cases hsucc : (send_to_completion g p0 t).2 = true
  · obtain ⟨hl, hh⟩ := send_to_completion_success_inv g p0 t hsucc
    obtain ⟨g0, hp0, hs0, hc0, heq⟩ := send_to_completion_shape g p0 t hl hh
    rw [heq]
    unfold region_zero at hreg ⊢
    dsimp only
    intro x hx hxle
    rw [caeft_players, record_players, hp0] at hx hxle
    rw [caeft_player_coins, record_player_coins, hc0]
    by_cases hxp0 : x = p0
    · exfalso
      subst hxp0
      have hxmem : x ∈ g.players := mem_of_getLast?_eq _ _ hl
      have hx_last : g.players.indexOf x = g.players.length - 1 :=
        (indexOf_eq_last_iff g.players x hxmem hnd).mpr hl
      have hplt : g.players.indexOf p < g.players.length :=
        List.indexOf_lt_length.mpr hp
      have hpx : g.players.indexOf p = g.players.indexOf x := by omega
      have hpeq : p = x := by
        have h1 : g.players.getD (g.players.indexOf p) "" = p :=
          indexOf_getD_self _ _ hp
        have h2 : g.players.getD (g.players.indexOf x) "" = x :=
          indexOf_getD_self _ _ hxmem
        rw [← h1, ← h2, hpx]
      have hlen : (lookupD g.player_coins p []).length = 0 :=
        hreg p hp (le_refl _)
      rw [hpeq] at hlen
      rw [List.length_eq_zero.mp hlen] at hh
      exact hh rfl
    · rw [lookupD_setKey_ne _ _ _ hxp0]
      exact hreg x hx hxle
  · rw [send_to_completion_fail g p0 t (by simpa using hsucc)]
    exact hreg

theorem send_to_completion_players (g : Game) (p : String) (t : Nat) :
    (send_to_completion g p t).1.players = g.players := by
  by_cases hsucc : (send_to_completion g p t).2 = true
  · obtain ⟨hl, hh⟩ := send_to_completion_success_inv g p t hsucc
    obtain ⟨g0, hp0, hs0, hc0, heq⟩ := send_to_completion_shape g p t hl hh
    rw [heq]
    dsimp only
    rw [caeft_players, record_players, hp0]
  · rw [send_to_completion_fail g p t (by simpa using hsucc)]

/-! ## Invariant steps: `flip_coin` and `send_batch` -/

theorem flip_WF (g : Game) (q0 : String) (i t : Nat) (hWF : WF g) :
    WF (flip_coin g q0 i t).1 := by
  obtain ⟨hne, hnd, hkc, hks⟩ := hWF
  unfold WF
  rw [flip_players, flip_sent, flip_coins_keys]
  exact ⟨hne, hnd, hkc, hks⟩

theorem flip_conserved (g : Game) (q0 : String) (i t : Nat)
    (hcons : conserved g) : conserved (flip_coin g q0 i t).1 := by
  unfold conserved at hcons ⊢
  rw [flip_sumLen, get_total_completed_coins_congr _ _ (flip_players g q0 i t)
    (flip_sent g q0 i t)]
  exact hcons

theorem flip_region (g : Game) (q0 p : String) (i t : Nat)
    (hreg : region_zero g p) : region_zero (flip_coin g q0 i t).1 p := by
  unfold region_zero at hreg ⊢
  intro x hx hxle
  rw [flip_players] at hx hxle
  rw [flip_lookup_length]
  exact hreg x hx hxle

theorem send_batch_players (g : Game) (p : String) (t : Nat) :
    (send_batch g p t).1.players = g.players := by
  by_cases hc : can_send_batch g p
  · by_cases hidx : g.players.indexOf p = g.players.length - 1
    · rw [send_batch_last_eq g p t hc hidx]
      dsimp only
      by_cases hr : (send_to_completion g p t).2 = true
      · rw [if_pos hr]
        dsimp only
        rw [caeft_players]
        exact send_to_completion_players g p t
      · rw [if_neg hr]
        exact send_to_completion_players g p t
    · rw [send_batch_nonlast_eq g p t hc hidx]
      dsimp only
      rw [caeft_players, record_players]
      split <;> rfl
  · rw [send_batch_not_can_send g p t (by simpa using hc)]

theorem send_batch_WF (g : Game) (p : String) (t : Nat) (hWF : WF g) :
    WF (send_batch g p t).1 := by
  obtain ⟨hne, hnd, hkc, hks⟩ := hWF
  by_cases hc : can_send_batch g p
  · have hkp := can_send_batch_hasKey g p hc
    have hp : p ∈ g.players := mem_of_keys g p hkc hkp
    by_cases hidx : g.players.indexOf p = g.players.length - 1
    · rw [send_batch_last_eq g p t hc hidx]
      dsimp only
      by_cases hr : (send_to_completion g p t).2 = true
      · rw [if_pos hr]
        dsimp only
        have h1 := send_to_completion_WF g p t ⟨hne, hnd, hkc, hks⟩
        unfold WF at h1 ⊢
        rw [caeft_players, caeft_player_coins, caeft_sent_coins]
        exact h1
      · rw [if_neg hr]
        exact send_to_completion_WF g p t ⟨hne, hnd, hkc, hks⟩
    · obtain ⟨hnen, hmemn⟩ := next_player_ne g.players p hp hnd hidx
      have hkn : hasKey g.player_coins
          (g.players.getD (g.players.indexOf p + 1) "") = true :=
        hasKey_of_mem _ _ _ hkc hmemn
      obtain ⟨g0, hp0, hs0, hc0, heq⟩ :=
        send_batch_nonlast_shape g p t hc hidx hnen hkn
      rw [heq]
      unfold WF
      dsimp only
      rw [caeft_players, record_players, hp0, caeft_player_coins,
        record_player_coins, hc0, caeft_sent_coins]
      refine ⟨hne, hnd, ?_, ?_⟩
      · rw [keys_setKey_of_hasKey _ _ _ (hasKey_setKey_mono _ _ _ _ hkn),
          keys_setKey_of_hasKey _ _ _ hkp]
        exact hkc
      · have hks0 : hasKey g0.sent_coins p = true := by
          rw [hs0]
          exact hasKey_of_mem _ _ _ hks hp
        rw [record_sent_batch_keys _ _ _ _ _ hks0, hs0]
        exact hks
  · rw [send_batch_not_can_send g p t (by simpa using hc)]
    exact ⟨hne, hnd, hkc, hks⟩

theorem send_batch_conserved (g : Game) (p : String) (t : Nat)
    (hWF : WF g) (hcons : conserved g) : conserved (send_batch g p t).1 := by
  obtain ⟨hne, hnd, hkc, hks⟩ := hWF
  by_cases hc : can_send_batch g p
  · have hkp := can_send_batch_hasKey g p hc
    have hp : p ∈ g.players := mem_of_keys g p hkc hkp
    by_cases hidx : g.players.indexOf p = g.players.length - 1
    · rw [send_batch_last_eq g p t hc hidx]
      dsimp only
      by_cases hr : (send_to_completion g p t).2 = true
      · rw [if_pos hr]
        dsimp only
        have h1 := send_to_completion_conserved g p t ⟨hne, hnd, hkc, hks⟩ hcons
        unfold conserved at h1 ⊢
        rw [caeft_player_coins, get_total_completed_coins_congr _ _
          (caeft_players _ _) (caeft_sent_coins _ _)]
        exact h1
      · rw [if_neg hr]
        exact send_to_completion_conserved g p t ⟨hne, hnd, hkc, hks⟩ hcons
    · obtain ⟨hnen, hmemn⟩ := next_player_ne g.players p hp hnd hidx
      have hkn : hasKey g.player_coins
          (g.players.getD (g.players.indexOf p + 1) "") = true :=
        hasKey_of_mem _ _ _ hkc hmemn
      obtain ⟨g0, hp0, hs0, hc0, heq⟩ :=
        send_batch_nonlast_shape g p t hc hidx hnen hkn
      unfold conserved at hcons ⊢
      rw [heq]
      dsimp only
      rw [caeft_player_coins, record_player_coins, hc0]
      rw [get_total_completed_coins_congr _ _ (caeft_players _ _)
        (caeft_sent_coins _ _)]
      have hlastne : g0.players.getLast? ≠ some p := by
        rw [hp0]
        intro hsome
        exact hidx ((indexOf_eq_last_iff g.players p hp hnd).mpr hsome)
      rw [get_total_completed_record_ne g0 p _ _ t hlastne]
      rw [get_total_completed_coins_congr g g0 hp0 hs0]
      have hsum1 := sumLen_setKey g.player_coins p (prepare_batch_transfer g p).2
      have hsum2 := sumLen_setKey
        (setKey g.player_coins p (prepare_batch_transfer g p).2)
        (g.players.getD (g.players.indexOf p + 1) "")
        (lookupD g.player_coins (g.players.getD (g.players.indexOf p + 1) "") []
          ++ List.replicate (prepare_batch_transfer g p).1.length false)
      rw [lookupD_setKey_ne _ _ _ hnen] at hsum2
      rw [List.length_append, List.length_replicate] at hsum2
      have hpart := prepare_batch_transfer_length g p
      omega
  · rw [send_batch_not_can_send g p t (by simpa using hc)]
    exact hcons

theorem send_batch_region (g : Game) (q0 p : String) (t : Nat)
    (hWF : WF g) (hp : p ∈ g.players) (hreg : region_zero g p) :
    region_zero (send_batch g q0 t).1 p := by
  obtain ⟨hne, hnd, hkc, hks⟩ := hWF
  by_cases hc : can_send_batch g q0
  · have hkq := can_send_batch_hasKey g q0 hc
    have hq0 : q0 ∈ g.players := mem_of_keys g q0 hkc hkq
    by_cases hidx : g.players.indexOf q0 = g.players.length - 1
    · rw [send_batch_last_eq g q0 t hc hidx]
      dsimp only
      by_cases hr : (send_to_completion g q0 t).2 = true
      · rw [if_pos hr]
        dsimp only
        have h1 := send_to_completion_region g q0 p t ⟨hne, hnd, hkc, hks⟩ hp hreg
        unfold region_zero at h1 ⊢
        intro x hx hxle
        rw [caeft_players] at hx hxle
        rw [caeft_player_coins]
        exact h1 x hx hxle
      · rw [if_neg hr]
        exact send_to_completion_region g q0 p t ⟨hne, hnd, hkc, hks⟩ hp hreg
    · obtain ⟨hnen, hmemn⟩ := next_player_ne g.players q0 hq0 hnd hidx
      have hkn : hasKey g.player_coins
          (g.players.getD (g.players.indexOf q0 + 1) "") = true :=
        hasKey_of_mem _ _ _ hkc hmemn
      obtain ⟨g0, hp0, hs0, hc0, heq⟩ :=
        send_batch_nonlast_shape g q0 t hc hidx hnen hkn
      rw [heq]
      unfold region_zero at hreg ⊢
      dsimp only
      intro x hx hxle
      rw [caeft_players, record_players, hp0] at hx hxle
      rw [caeft_player_coins, record_player_coins, hc0]
      by_cases hxn : x = g.players.getD (g.players.indexOf q0 + 1) ""
      · subst hxn
        rw [lookupD_setKey_self]
        have hlt : g.players.indexOf q0 < g.players.length :=
          List.indexOf_lt_length.mpr hq0
        have hlt1 : g.players.indexOf q0 + 1 < g.players.length := by
          have : g.players.indexOf q0 ≠ g.players.length - 1 := hidx
          omega
        have hidxx : g.players.indexOf
            (g.players.getD (g.players.indexOf q0 + 1) "")
            = g.players.indexOf q0 + 1 := indexOf_getD g.players _ hnd hlt1
        rw [hidxx] at hxle
        have hq0len : (lookupD g.player_coins q0 []).length = 0 :=
          hreg q0 hq0 (by omega)
        have hpr : prepare_batch_transfer g q0 = ([], []) :=
          prepare_batch_transfer_empty g q0 (List.length_eq_zero.mp hq0len)
        rw [hpr]
        simp only [List.length_nil, List.replicate_zero, List.append_nil]
        exact hreg _ hx (by rw [hidxx]; omega)
      · rw [lookupD_setKey_ne _ _ _ hxn]
        by_cases hxq : x = q0
        · subst hxq
          rw [lookupD_setKey_self]
          have hpr : prepare_batch_transfer g x = ([], []) :=
            prepare_batch_transfer_empty g x
              (List.length_eq_zero.mp (hreg x hx hxle))
          rw [hpr]
          rfl
        · rw [lookupD_setKey_ne _ _ _ hxq]
          exact hreg x hx hxle
  · rw [send_batch_not_can_send g q0 t (by simpa using hc)]
    exact hreg

/-! ## Invariants over action sequences -/

theorem applyOp_players (g : Game) (op : Op) :
    (applyOp g op).players = g.players := by
  cases op with
  | flip p i t => exact flip_players g p i t
  | send p t => exact send_batch_players g p t
  | complete p t => exact send_to_completion_players g p t

theorem applyOp_WF (g : Game) (op : Op) (hWF : WF g) : WF (applyOp g op) := by
  cases op with
  | flip p i t => exact flip_WF g p i t hWF
  | send p t => exact send_batch_WF g p t hWF
  | complete p t => exact send_to_completion_WF g p t hWF

theorem applyOp_conserved (g : Game) (op : Op) (hWF : WF g)
    (hcons : conserved g) : conserved (applyOp g op) := by
  cases op with
  | flip p i t => exact flip_conserved g p i t hcons
  | send p t => exact send_batch_conserved g p t hWF hcons
  | complete p t => exact send_to_completion_conserved g p t hWF hcons

theorem applyOp_region (g : Game) (op : Op) (p : String) (hWF : WF g)
    (hp : p ∈ g.players) (hreg : region_zero g p) :
    region_zero (applyOp g op) p := by
  cases op with
  | flip q i t => exact flip_region g q p i t hreg
  | send q t => exact send_batch_region g q p t hWF hp hreg
  | complete q t => exact send_to_completion_region g q p t hWF hp hreg

theorem applyOps_players (ops : List Op) :
    ∀ g : Game, (applyOps g ops).players = g.players := by
  induction ops with
  | nil => intro g; rfl
  | cons op rest ih =>
    intro g
    show (applyOps (applyOp g op) rest).players = g.players
    rw [ih (applyOp g op), applyOp_players]

theorem applyOps_WF (ops : List Op) :
    ∀ g : Game, WF g → WF (applyOps g ops) := by
  induction ops with
  | nil => exact fun g h => h
  | cons op rest ih =>
    intro g hWF
    exact ih (applyOp g op) (applyOp_WF g op hWF)

theorem applyOps_conserved (ops : List Op) :
    ∀ g : Game, WF g → conserved g → conserved (applyOps g ops) := by
  induction ops with
  | nil => exact fun g _ h => h
  | cons op rest ih =>
    intro g hWF hcons
    exact ih (applyOp g op) (applyOp_WF g op hWF)
      (applyOp_conserved g op hWF hcons)

theorem applyOps_region (ops : List Op) :
    ∀ g : Game, ∀ p : String, WF g → p ∈ g.players → region_zero g p →
      region_zero (applyOps g ops) p := by
  induction ops with
  | nil => exact fun g p _ _ h => h
  | cons op rest ih =>
    intro g p hWF hp hreg
    exact ih (applyOp g op) p (applyOp_WF g op hWF)
      (by rw [applyOp_players]; exact hp)
      (applyOp_region g op p hWF hp hreg)

/-! ## Properties of the initialized round -/

theorem headD_mem (l : List String) (hne : l ≠ []) : l.headD "" ∈ l := by
  cases l with
  | nil => exact absurd rfl hne
  | cons a rest => exact List.mem_cons_self a rest

theorem init_round_players (players : List String) (bs t0 : Nat) :
    (init_round players bs t0).players = players := by
  unfold init_round
  rw [initialize_player_coins_players]

theorem init_round_coins (players : List String) (bs t0 : Nat)
    (hne : players ≠ []) :
    (init_round players bs t0).player_coins
      = setKey (players.map (fun p => (p, ([] : List Bool))))
          (players.headD "") (List.replicate TOTAL_COINS false) := by
  unfold init_round initialize_player_coins
  rw [if_neg hne]
  dsimp only
  unfold initialize_player_timers
  dsimp only
  rw [if_pos rfl]

theorem init_round_sent (players : List String) (bs t0 : Nat)
    (hne : players ≠ []) :
    (init_round players bs t0).sent_coins
      = players.map (fun p => (p, ([] : List SentBatch))) := by
  unfold init_round initialize_player_coins
  rw [if_neg hne]
  dsimp only
  unfold initialize_player_timers
  dsimp only
  rw [if_pos rfl]

theorem init_round_WF (players : List String) (bs t0 : Nat)
    (hne : players ≠ []) (hnd : players.Nodup) :
    WF (init_round players bs t0) := by
  unfold WF
  rw [init_round_players, init_round_coins players bs t0 hne,
    init_round_sent players bs t0 hne]
  refine ⟨hne, hnd, ?_, keys_map_pair players _⟩
  rw [keys_setKey_of_hasKey]
  · exact keys_map_pair players _
  · exact hasKey_of_mem _ players _ (keys_map_pair players _)
      (headD_mem players hne)

theorem init_round_conserved (players : List String) (bs t0 : Nat)
    (hne : players ≠ []) : conserved (init_round players bs t0) := by
  unfold conserved
  have hsum : sumLen (init_round players bs t0).player_coins = TOTAL_COINS := by
    rw [init_round_coins players bs t0 hne]
    have h := sumLen_setKey (players.map (fun p => (p, ([] : List Bool))))
      (players.headD "") (List.replicate TOTAL_COINS false)
    rw [lookupD_map_const, sumLen_map_nil, List.length_replicate,
      List.length_nil] at h
    omega
  have htot : get_total_completed_coins (init_round players bs t0) = 0 := by
    unfold get_total_completed_coins
    rw [init_round_players, init_round_sent players bs t0 hne, if_neg hne]
    cases hlast : players.getLast? with
    | none => rfl
    | some last =>
      dsimp only
      rw [hasKey_of_mem _ players last (keys_map_pair players _)
        (mem_of_getLast?_eq _ _ hlast), if_neg (by decide)]
      rw [lookupD_map_const]
      rfl
  rw [hsum, htot]
  omega

/-! ## The finish predicate as a region property -/

theorem has_player_finished_iff (g : Game) (p : String) :
    has_player_finished g p = true ↔
      (hasKey g.player_coins p = true
        ∧ (lookupD g.player_coins p []).length = 0
        ∧ ∀ i < g.players.indexOf p,
            (lookupD g.player_coins (g.players.getD i "") []).length = 0) := by
  unfold has_player_finished
  by_cases hk : hasKey g.player_coins p
  · rw [if_neg (by rw [hk]; exact Bool.false_ne_true)]
    dsimp only
    by_cases hl : (lookupD g.player_coins p []).length > 0
    · rw [if_pos hl]
      simp only [Bool.false_eq_true, false_iff]
      intro hcon
      omega
    · rw [if_neg hl]
      by_cases hz : g.players.indexOf p = 0
      · rw [if_pos hz]
        simp only [true_iff]
        exact ⟨hk, by omega, by rw [hz]; intro i hi; omega⟩
      · rw [if_neg hz]
        rw [List.all_eq_true]
        constructor
        · intro hall
          refine ⟨hk, by omega, fun i hi => ?_⟩
          have := hall i (List.mem_range.mpr hi)
          simpa using this
        · rintro ⟨_, _, hcl⟩ i hi
          simp only [beq_iff_eq]
          exact hcl i (List.mem_range.mp hi)
  · rw [if_pos (by rw [(by simpa using hk :
      hasKey g.player_coins p = false)]; rfl)]
    simp only [Bool.false_eq_true, false_iff]
    intro hcon
    exact hk hcon.1

theorem finished_iff_region (g : Game) (p : String) (hWF : WF g)
    (hp : p ∈ g.players) :
    has_player_finished g p = true ↔ region_zero g p := by
  obtain ⟨hne, hnd, hkc, hks⟩ := hWF
  rw [has_player_finished_iff]
  constructor
  · rintro ⟨hk, hlp, hcl⟩
    intro x hx hxle
    by_cases hxi : g.players.indexOf x = g.players.indexOf p
    · have hxp : x = p := by
        have h1 : g.players.getD (g.players.indexOf x) "" = x :=
          indexOf_getD_self _ _ hx
        have h2 : g.players.getD (g.players.indexOf p) "" = p :=
          indexOf_getD_self _ _ hp
        rw [← h1, ← h2, hxi]
      rw [hxp]
      exact hlp
    · have hxlt : g.players.indexOf x < g.players.indexOf p := by omega
      have := hcl (g.players.indexOf x) hxlt
      rwa [indexOf_getD_self _ _ hx] at this
  · intro hreg
    refine ⟨hasKey_of_mem _ _ _ hkc hp, hreg p hp (le_refl _), fun i hi => ?_⟩
    have hplt : g.players.indexOf p < g.players.length :=
      List.indexOf_lt_length.mpr hp
    have hilt : i < g.players.length := by omega
    have hmem : g.players.getD i "" ∈ g.players := by
      rw [List.getD_eq_getElem g.players "" hilt]
      exact List.getElem_mem _
    refine hreg _ hmem ?_
    rw [indexOf_getD g.players i hnd hilt]
    omega

/-! ## C2 — conservation of units -/

/-- C2: from round initialization with a fixed roster, any sequence of
`flip_coin`, `send_batch` and `send_to_completion` actions preserves the
conservation law: the units held by the players plus the units recorded into
the terminal COMPLETED bucket always total `TOTAL_COINS`. -/
theorem conservation_invariant (players : List String) (bs t0 : Nat)
    (ops : List Op) (hne : players ≠ []) (hnd : players.Nodup) :
    sumLen (applyOps (init_round players bs t0) ops).player_coins
      + get_total_completed_coins (applyOps (init_round players bs t0) ops)
      = TOTAL_COINS := by
  exact applyOps_conserved ops (init_round players bs t0)
    (init_round_WF players bs t0 hne hnd)
    (init_round_conserved players bs t0 hne)

theorem conservation_invariant_witness :
    sumLen (applyOps (init_round ["a", "b"] 5 0)
        [Op.flip "a" 0 1, Op.flip "a" 1 2, Op.flip "a" 2 3, Op.flip "a" 3 4,
         Op.flip "a" 4 5, Op.send "a" 6, Op.flip "b" 0 7, Op.send "b" 8]).player_coins
      + get_total_completed_coins (applyOps (init_round ["a", "b"] 5 0)
        [Op.flip "a" 0 1, Op.flip "a" 1 2, Op.flip "a" 2 3, Op.flip "a" 3 4,
         Op.flip "a" 4 5, Op.send "a" 6, Op.flip "b" 0 7, Op.send "b" 8])
      = TOTAL_COINS := by
  exact conservation_invariant ["a", "b"] 5 0
    [Op.flip "a" 0 1, Op.flip "a" 1 2, Op.flip "a" 2 3, Op.flip "a" 3 4,
     Op.flip "a" 4 5, Op.send "a" 6, Op.flip "b" 0 7, Op.send "b" 8]
    (by decide) (by decide)

/-! ## C7 — finish monotonicity -/

/-- C7: in a well-formed game state, once `has_player_finished p` holds it
keeps holding after every further `flip_coin`, `send_batch` and
`send_to_completion` action (units never flow back into a finished player);
only a re-initialization of the ledger can reset it. -/
theorem finish_monotone (g : Game) (p : String) (ops : List Op)
    (hWF : WF g) (hp : p ∈ g.players)
    (hfin : has_player_finished g p = true) :
    has_player_finished (applyOps g ops) p = true := by
  have hreg : region_zero g p := (finished_iff_region g p hWF hp).mp hfin
  have hreg' : region_zero (applyOps g ops) p :=
    applyOps_region ops g p hWF hp hreg
  have hWF' : WF (applyOps g ops) := applyOps_WF ops g hWF
  have hp' : p ∈ (applyOps g ops).players := by
    rw [applyOps_players]
    exact hp
  exact (finished_iff_region (applyOps g ops) p hWF' hp').mpr hreg'

theorem finish_monotone_witness :
    has_player_finished (applyOps finished_a_game
      [Op.flip "b" 0 30, Op.send "b" 31, Op.flip "b" 1 32]) "a" = true := by
  exact finish_monotone finished_a_game "a"
    [Op.flip "b" 0 30, Op.send "b" 31, Op.flip "b" 1 32]
    ⟨by decide, by decide, by decide, by decide⟩ (by decide) (by decide)

end PennyGame
